import Mathlib

/-!
Verification of the cloud-cost-optimizer analysis core.

This file gives a shallow embedding, in Lean 4, of the analysis and
recommendation pipeline of the repository:

* `src/analyzers/cost_analyzer.py`     (trend / period / anomaly / efficiency)
* `src/analyzers/rightsizing_analyzer.py` (machine catalog, sizing decision)
* `src/analyzers/recommendation_engine.py` (priorities, ranking)

Numbers are embedded as `ℚ` (the Python code computes with floats whose
values here are exact decimals), Python `round(x, 2)` as round-half-to-even
over `ℚ`, Python dicts with optional keys as `Option` fields, and Python's
stable `sorted` as a stable insertion sort.  Presentation-only fields
(`analysis_date` timestamps, human-readable f-strings) are omitted from the
embedded result records; every field a claim talks about is present.
-/

/- Batteries marks the `Rat` arithmetic operations irreducible, which
blocks `decide` from evaluating concrete rational computations; restore
the default reducibility for this file. -/
attribute [local semireducible] Rat.mul Rat.add Rat.sub Rat.inv Rat.ofScientific

namespace CCO

/-! ## Rounding: the embedding of Python `round(x, 2)` -/

/-- Round a rational to the nearest integer, ties going to the even
integer, as CPython `round` does.  (`Rat.floor` is used rather than `⌊·⌋`
so that the function evaluates by kernel reduction.) -/
def roundHalfEven (x : ℚ) : ℤ :=
  if x - Rat.floor x < 1/2 then Rat.floor x
  else if 1/2 < x - Rat.floor x then Rat.floor x + 1
  else if Rat.floor x % 2 = 0 then Rat.floor x else Rat.floor x + 1

/-- Embedding of Python `round(x, 2)`. -/
def round2 (x : ℚ) : ℚ := (roundHalfEven (x * 100) : ℚ) / 100

theorem rat_floor_eq (x : ℚ) : Rat.floor x = ⌊x⌋ := by
  rw [Rat.floor_def', Rat.floor_def]

theorem roundHalfEven_intCast (n : ℤ) : roundHalfEven (n : ℚ) = n := by
  unfold roundHalfEven
  rw [rat_floor_eq]
  simp

theorem abs_roundHalfEven_sub (x : ℚ) : |(roundHalfEven x : ℚ) - x| ≤ 1/2 := by
  unfold roundHalfEven
  rw [rat_floor_eq]
  have h0 : (0 : ℚ) ≤ x - ⌊x⌋ := by
    have := Int.floor_le x
    linarith
  have h1 : x - ⌊x⌋ < 1 := by
    have := Int.lt_floor_add_one x
    linarith
  split_ifs with hlt hgt hev
  · rw [abs_le]; constructor <;> linarith
  · rw [abs_le]; constructor <;> push_cast <;> linarith
  · have heq : x - ⌊x⌋ = 1/2 := le_antisymm (not_lt.mp hgt) (not_lt.mp hlt)
    rw [abs_le]; constructor <;> linarith
  · have heq : x - ⌊x⌋ = 1/2 := le_antisymm (not_lt.mp hgt) (not_lt.mp hlt)
    rw [abs_le]; constructor <;> push_cast <;> linarith

theorem roundHalfEven_mono {x y : ℚ} (h : x ≤ y) :
    roundHalfEven x ≤ roundHalfEven y := by
  have hf := Int.floor_le_floor h
  rcases eq_or_lt_of_le hf with hf2 | hf2
  · unfold roundHalfEven
    rw [rat_floor_eq, rat_floor_eq, ← hf2]
    split_ifs with a1 a2 a3 a4 a5 a6 a7 a8 a9 <;>
      first
        | omega
        | (exfalso; rw [← hf2] at *; push_neg at *; linarith)
  · have hx : roundHalfEven x ≤ ⌊x⌋ + 1 := by
      unfold roundHalfEven
      rw [rat_floor_eq]
      split_ifs <;> omega
    have hy : ⌊y⌋ ≤ roundHalfEven y := by
      unfold roundHalfEven
      rw [rat_floor_eq]
      split_ifs <;> omega
    omega

theorem abs_round2_sub (x : ℚ) : |round2 x - x| ≤ 1/200 := by
  unfold round2
  have h := abs_roundHalfEven_sub (x * 100)
  rw [show (roundHalfEven (x*100) : ℚ)/100 - x = ((roundHalfEven (x*100) : ℚ) - x*100)/100 by ring,
    abs_div]
  rw [show |(100 : ℚ)| = 100 by norm_num]
  rw [div_le_iff₀ (by norm_num : (0:ℚ) < 100)]
  linarith

theorem round2_mono {x y : ℚ} (h : x ≤ y) : round2 x ≤ round2 y := by
  unfold round2
  have h1 := roundHalfEven_mono (show x * 100 ≤ y * 100 by linarith)
  have h2 : ((roundHalfEven (x*100) : ℤ) : ℚ) ≤ ((roundHalfEven (y*100) : ℤ) : ℚ) := by
    exact_mod_cast h1
  linarith

theorem round2_hundredth (m : ℤ) : round2 ((m : ℚ) / 100) = (m : ℚ) / 100 := by
  unfold round2
  rw [div_mul_cancel₀ _ (by norm_num : (100:ℚ) ≠ 0), roundHalfEven_intCast]

theorem round2_zero : round2 0 = 0 := by
  have h := round2_hundredth 0
  simpa using h

theorem round2_nonneg {x : ℚ} (h : 0 ≤ x) : 0 ≤ round2 x := by
  have h2 := round2_mono h
  rwa [round2_zero] at h2

theorem round2_le_hundred {x : ℚ} (h : x ≤ 100) : round2 x ≤ 100 := by
  have h1 := round2_mono h
  have h2 : round2 100 = 100 := by
    have h3 := round2_hundredth 10000
    norm_num at h3
    exact h3
  linarith

/-! ## Stable sort: the embedding of Python `sorted` / `list.sort`

Python's sort is stable; `sSort` below is a stable insertion sort: an
element is inserted before the first element whose key is not strictly
smaller, so equal-key elements keep their original relative order. -/

variable {α : Type} {κ : Type} [LinearOrder κ]

/-- Insert `x` before the first element whose key is not smaller than
`key x`. -/
def sInsert (key : α → κ) (x : α) : List α → List α
  | [] => [x]
  | h :: t => if key h < key x then h :: sInsert key x t else x :: h :: t

/-- Stable insertion sort by `key` (ascending). -/
def sSort (key : α → κ) : List α → List α
  | [] => []
  | x :: xs => sInsert key x (sSort key xs)

theorem sInsert_perm (key : α → κ) (x : α) (l : List α) :
    (sInsert key x l).Perm (x :: l) := by
  induction l with
  | nil => simp [sInsert]
  | cons h t ih =>
    by_cases hc : key h < key x
    · simp only [sInsert, if_pos hc]
      exact (ih.cons h).trans (List.Perm.swap x h t)
    · simp [sInsert, if_neg hc]

theorem sSort_perm (key : α → κ) (l : List α) : (sSort key l).Perm l := by
  induction l with
  | nil => simp [sSort]
  | cons x xs ih =>
    exact (sInsert_perm key x (sSort key xs)).trans (ih.cons x)

theorem mem_sInsert {key : α → κ} {x y : α} {l : List α} :
    y ∈ sInsert key x l ↔ y = x ∨ y ∈ l := by
  rw [(sInsert_perm key x l).mem_iff, List.mem_cons]

theorem sInsert_sorted {key : α → κ} {x : α} {l : List α}
    (hl : l.Pairwise (fun a b => key a ≤ key b)) :
    (sInsert key x l).Pairwise (fun a b => key a ≤ key b) := by
  induction l with
  | nil => simp [sInsert]
  | cons h t ih =>
    rcases List.pairwise_cons.mp hl with ⟨hht, htt⟩
    by_cases hc : key h < key x
    · simp only [sInsert, if_pos hc]
      refine List.pairwise_cons.mpr ⟨?_, ih htt⟩
      intro y hy
      rcases mem_sInsert.mp hy with rfl | hy
      · exact le_of_lt hc
      · exact hht y hy
    · simp only [sInsert, if_neg hc]
      refine List.pairwise_cons.mpr ⟨?_, hl⟩
      intro y hy
      rcases List.mem_cons.mp hy with rfl | hy
      · exact not_lt.mp hc
      · exact le_trans (not_lt.mp hc) (hht y hy)

theorem sSort_sorted (key : α → κ) (l : List α) :
    (sSort key l).Pairwise (fun a b => key a ≤ key b) := by
  induction l with
  | nil => simp [sSort]
  | cons x xs ih => exact sInsert_sorted ih

/-- Stability: `sSort` preserves any pairwise relation `S` that holds
automatically between elements with distinct keys (for instance: "if the
keys are equal, my original position precedes yours"). -/
theorem sInsert_pairwise (key : α → κ) {S : α → α → Prop}
    (hS : ∀ a b : α, key a ≠ key b → S a b) {x : α} {l : List α}
    (hl : l.Pairwise S) (hx : ∀ y ∈ l, S x y) :
    (sInsert key x l).Pairwise S := by
  induction l with
  | nil => simp [sInsert]
  | cons h t ih =>
    rcases List.pairwise_cons.mp hl with ⟨hht, htt⟩
    by_cases hc : key h < key x
    · simp only [sInsert, if_pos hc]
      refine List.pairwise_cons.mpr ⟨?_, ?_⟩
      · intro y hy
        rcases mem_sInsert.mp hy with rfl | hy
        · exact hS h y (ne_of_lt hc)
        · exact hht y hy
      · exact ih htt (fun y hy => hx y (List.mem_cons_of_mem h hy))
    · simp only [sInsert, if_neg hc]
      exact List.pairwise_cons.mpr ⟨fun y hy => hx y hy, hl⟩

theorem sSort_pairwise (key : α → κ) {S : α → α → Prop}
    (hS : ∀ a b : α, key a ≠ key b → S a b) {l : List α}
    (hl : l.Pairwise S) : (sSort key l).Pairwise S := by
  induction l with
  | nil => simp [sSort]
  | cons x xs ih =>
    rcases List.pairwise_cons.mp hl with ⟨hxs, hxx⟩
    refine sInsert_pairwise key hS (ih hxx) ?_
    intro y hy
    exact hxs y ((sSort_perm key xs).mem_iff.mp hy)

/-- Congruence: sorting two pointwise related lists (with equal keys at
matching positions) yields pointwise related outputs in the same
arrangement. -/
theorem sInsert_forall₂ (key : α → κ) {R : α → α → Prop}
    (hR : ∀ a b : α, R a b → key a = key b) {x₁ x₂ : α} {l₁ l₂ : List α}
    (hx : R x₁ x₂) (hl : List.Forall₂ R l₁ l₂) :
    List.Forall₂ R (sInsert key x₁ l₁) (sInsert key x₂ l₂) := by
  induction hl with
  | nil => simpa [sInsert] using hx
  | @cons h₁ h₂ t₁ t₂ hh ht ih =>
    have hk : key h₁ = key h₂ := hR h₁ h₂ hh
    have hkx : key x₁ = key x₂ := hR x₁ x₂ hx
    by_cases hc : key h₁ < key x₁
    · have hc₂ : key h₂ < key x₂ := by rw [← hk, ← hkx]; exact hc
      simp only [sInsert, if_pos hc, if_pos hc₂]
      exact List.Forall₂.cons hh ih
    · have hc₂ : ¬ key h₂ < key x₂ := by rw [← hk, ← hkx]; exact hc
      simp only [sInsert, if_neg hc, if_neg hc₂]
      exact List.Forall₂.cons hx (List.Forall₂.cons hh ht)

theorem sSort_forall₂ (key : α → κ) {R : α → α → Prop}
    (hR : ∀ a b : α, R a b → key a = key b) {l₁ l₂ : List α}
    (hl : List.Forall₂ R l₁ l₂) :
    List.Forall₂ R (sSort key l₁) (sSort key l₂) := by
  induction hl with
  | nil => simp [sSort]
  | @cons h₁ h₂ t₁ t₂ hh ht ih => exact sInsert_forall₂ key hR hh ih

/-! ## Grouped accumulation: the embedding of `defaultdict(float)` loops

Both `analyze_cost_trends` and `identify_anomalies` accumulate costs into a
`defaultdict(float)` keyed by a string; iteration over a Python dict visits
keys in first-insertion order, so the embedding is an association list
updated in place (existing key) or extended at the end (new key). -/

def upsert : List (String × ℚ) → String → ℚ → List (String × ℚ)
  | [], k, c => [(k, c)]
  | (k2, v) :: t, k, c =>
      if k2 = k then (k2, v + c) :: t else (k2, v) :: upsert t k c

/-- Accumulate a list of (key, cost) pairs, in order. -/
def groupSum (l : List (String × ℚ)) : List (String × ℚ) :=
  l.foldl (fun acc p => upsert acc p.1 p.2) []

theorem upsert_snd_sum (acc : List (String × ℚ)) (k : String) (c : ℚ) :
    ((upsert acc k c).map Prod.snd).sum = (acc.map Prod.snd).sum + c := by
  induction acc with
  | nil => simp [upsert]
  | cons h t ih =>
    rcases h with ⟨k2, v⟩
    by_cases hk : k2 = k
    · simp [upsert, hk]
      ring
    · simp [upsert, hk, ih]
      ring

theorem groupSum_snd_sum (l : List (String × ℚ)) :
    ((groupSum l).map Prod.snd).sum = (l.map Prod.snd).sum := by
  have main : ∀ (l : List (String × ℚ)) (acc : List (String × ℚ)),
      (((l.foldl (fun acc p => upsert acc p.1 p.2) acc)).map Prod.snd).sum
        = (acc.map Prod.snd).sum + (l.map Prod.snd).sum := by
    intro l
    induction l with
    | nil => intro acc; simp
    | cons p t ih =>
      intro acc
      simp only [List.foldl_cons, List.map_cons, List.sum_cons]
      rw [ih, upsert_snd_sum]
      ring
  have h := main l []
  simpa using h

theorem upsert_keys (acc : List (String × ℚ)) (k : String) (c : ℚ) :
    (upsert acc k c).map Prod.fst =
      if k ∈ acc.map Prod.fst then acc.map Prod.fst
      else acc.map Prod.fst ++ [k] := by
  induction acc with
  | nil => simp [upsert]
  | cons h t ih =>
    rcases h with ⟨k2, v⟩
    by_cases hk : k2 = k
    · subst hk
      simp [upsert]
    · simp only [upsert, if_neg hk, List.map_cons, List.mem_cons]
      rw [ih]
      by_cases hm : k ∈ t.map Prod.fst
      · simp [hm, Ne.symm hk]
      · simp [hm, Ne.symm hk]

theorem upsert_keys_nodup {acc : List (String × ℚ)} (k : String) (c : ℚ)
    (h : (acc.map Prod.fst).Nodup) : ((upsert acc k c).map Prod.fst).Nodup := by
  rw [upsert_keys]
  by_cases hm : k ∈ acc.map Prod.fst
  · simpa [hm] using h
  · simp only [hm, if_neg, ite_false]
    rw [List.nodup_append]
    exact ⟨h, List.nodup_singleton k, by simpa using fun hk => hm hk⟩

theorem groupSum_keys_nodup (l : List (String × ℚ)) :
    ((groupSum l).map Prod.fst).Nodup := by
  have main : ∀ (l acc : List (String × ℚ)), (acc.map Prod.fst).Nodup →
      (((l.foldl (fun acc p => upsert acc p.1 p.2) acc)).map Prod.fst).Nodup := by
    intro l
    induction l with
    | nil => intro acc h; simpa using h
    | cons p t ih =>
      intro acc h
      exact ih _ (upsert_keys_nodup p.1 p.2 h)
  exact main l [] (by simp)

theorem upsert_nonneg {acc : List (String × ℚ)} {k : String} {c : ℚ}
    (hacc : ∀ p ∈ acc, 0 ≤ p.2) (hc : 0 ≤ c) :
    ∀ p ∈ upsert acc k c, 0 ≤ p.2 := by
  induction acc with
  | nil =>
    intro p hp
    simp only [upsert, List.mem_singleton] at hp
    subst hp; exact hc
  | cons h t ih =>
    rcases h with ⟨k2, v⟩
    intro p hp
    by_cases hk : k2 = k
    · simp only [upsert, if_pos hk, List.mem_cons] at hp
      rcases hp with rfl | hp
      · have := hacc (k2, v) (by simp)
        simp only at this ⊢
        linarith
      · exact hacc p (List.mem_cons_of_mem _ hp)
    · simp only [upsert, if_neg hk, List.mem_cons] at hp
      rcases hp with rfl | hp
      · exact hacc (k2, v) (by simp)
      · exact ih (fun q hq => hacc q (List.mem_cons_of_mem _ hq)) p hp

theorem groupSum_nonneg {l : List (String × ℚ)} (h : ∀ p ∈ l, 0 ≤ p.2) :
    ∀ p ∈ groupSum l, 0 ≤ p.2 := by
  have main : ∀ (l acc : List (String × ℚ)), (∀ p ∈ acc, 0 ≤ p.2) →
      (∀ p ∈ l, 0 ≤ p.2) →
      ∀ p ∈ l.foldl (fun acc p => upsert acc p.1 p.2) acc, 0 ≤ p.2 := by
    intro l
    induction l with
    | nil => intro acc ha _ p hp; exact ha p hp
    | cons q t ih =>
      intro acc ha hl p hp
      exact ih _ (upsert_nonneg ha (hl q (by simp)))
        (fun r hr => hl r (List.mem_cons_of_mem _ hr)) p hp
  exact main l [] (by simp) h

/-- Bounding the drift introduced by per-entry rounding of a list sum. -/
theorem sum_map_round2_close (l : List ℚ) :
    |(l.map round2).sum - l.sum| ≤ l.length * (1/200) := by
  induction l with
  | nil => simp
  | cons x t ih =>
    simp only [List.map_cons, List.sum_cons, List.length_cons]
    have hx := abs_round2_sub x
    calc |round2 x + (t.map round2).sum - (x + t.sum)|
        = |(round2 x - x) + ((t.map round2).sum - t.sum)| := by ring_nf
      _ ≤ |round2 x - x| + |(t.map round2).sum - t.sum| := abs_add _ _
      _ ≤ 1/200 + t.length * (1/200) := by linarith
      _ = ((t.length + 1 : ℕ) : ℚ) * (1/200) := by push_cast; ring

/-! ## Cost Analyzer (`src/analyzers/cost_analyzer.py`)

A billing record is a Python dict; the fields the analyzer reads are
`{group_by}_name` (looked up through `dims`), `cost`, `date` and
`collection_date`.  Absent keys are `none`. -/

structure BillingRecord where
  dims : String → Option String
  cost : Option ℚ
  date : Option String
  collection_date : Option String

/-- Embedding of `record.get(f'{group_by}_name', 'Unknown')`. -/
def keyName (r : BillingRecord) (group_by : String) : String :=
  (r.dims (group_by ++ "_name")).getD "Unknown"

/-- Embedding of `float(record.get('cost', 0))`. -/
def costOf (r : BillingRecord) : ℚ := r.cost.getD 0

structure BreakdownEntry where
  name : String
  cost : ℚ
  percentage : ℚ
  deriving DecidableEq

structure TrendResult where
  status : String
  message : Option String
  total_cost : Option ℚ
  breakdown : List BreakdownEntry
  top_cost_driver : Option String
  deriving DecidableEq

/-- The (group key, cost) pairs the trend analysis accumulates. -/
def trendPairs (billing_data : List BillingRecord) (group_by : String) :
    List (String × ℚ) :=
  billing_data.map fun r => (keyName r group_by, costOf r)

/-- One breakdown entry: rounded cost and rounded share of the total. -/
def mkBreakdown (total_cost : ℚ) (p : String × ℚ) : BreakdownEntry :=
  { name := p.1, cost := round2 p.2,
    percentage := round2 (if 0 < total_cost then p.2 / total_cost * 100 else 0) }

/-- Embedding of `CostAnalyzer.analyze_cost_trends`.  (The `analysis_date`
timestamp is presentation-only and omitted.) -/
def analyze_cost_trends (billing_data : List BillingRecord)
    (group_by : String) : TrendResult :=
  if billing_data.isEmpty then
    { status := "no_data",
      message := some "No billing data available for analysis",
      total_cost := none, breakdown := [], top_cost_driver := none }
  else
    let grouped := groupSum (trendPairs billing_data group_by)
    let total_cost := ((trendPairs billing_data group_by).map Prod.snd).sum
    let sortedGroups := sSort (fun p : String × ℚ => -p.2) grouped
    let breakdown := sortedGroups.map (mkBreakdown total_cost)
    { status := "success",
      message := none,
      total_cost := some (round2 total_cost),
      breakdown := breakdown,
      top_cost_driver := breakdown.head?.map (·.name) }

structure ComparisonResult where
  current_period_cost : ℚ
  previous_period_cost : ℚ
  absolute_change : ℚ
  percentage_change : ℚ
  trend : String
  deriving DecidableEq

/-- Embedding of `CostAnalyzer.compare_periods`. -/
def compare_periods (current_data previous_data : List BillingRecord) :
    ComparisonResult :=
  let current_total := (current_data.map costOf).sum
  let previous_total := (previous_data.map costOf).sum
  let percentage_change :=
    if previous_total = 0 then (if 0 < current_total then (100 : ℚ) else 0)
    else (current_total - previous_total) / previous_total * 100
  { current_period_cost := round2 current_total,
    previous_period_cost := round2 previous_total,
    absolute_change := round2 (current_total - previous_total),
    percentage_change := round2 percentage_change,
    trend := if previous_total < current_total then "increasing" else "decreasing" }

structure Anomaly where
  date : String
  cost : ℚ
  average_cost : ℚ
  deviation_percentage : ℚ
  severity : String
  deriving DecidableEq

/-- Embedding of `record.get('date', record.get('collection_date', 'Unknown'))`. -/
def dateKey (r : BillingRecord) : String :=
  (r.date.or r.collection_date).getD "Unknown"

/-- Embedding of `date_str.split('T')[0]`: the prefix before the first
'T' (the whole string when no 'T' occurs). -/
def datePart (s : String) : String := ⟨s.data.takeWhile (· ≠ 'T')⟩

/-- The per-date cost buckets built by `identify_anomalies`. -/
def dailyCosts (billing_data : List BillingRecord) : List (String × ℚ) :=
  groupSum (billing_data.filterMap fun r =>
    if dateKey r = "Unknown" then none else some (datePart (dateKey r), costOf r))

/-- Embedding of `CostAnalyzer.identify_anomalies`. -/
def identify_anomalies (billing_data : List BillingRecord)
    (threshold_percentage : ℚ) : List Anomaly :=
  let daily := dailyCosts billing_data
  if daily.length < 2 then []
  else
    let avg_cost := (daily.map Prod.snd).sum / daily.length
    daily.filterMap fun p =>
      let deviation :=
        if 0 < avg_cost then (p.2 - avg_cost) / avg_cost * 100 else 0
      if threshold_percentage < |deviation| then
        some { date := p.1, cost := round2 p.2, average_cost := round2 avg_cost,
               deviation_percentage := round2 deviation,
               severity := if 50 < |deviation| then "high" else "medium" }
      else none

structure ResourceRecord where
  name : Option String
  rtype : Option String
  size_gb : Option ℚ

structure EfficiencyResult where
  total_resources : ℤ
  active_resources : ℤ
  idle_resources : ℤ
  utilization_rate : ℚ
  efficiency_grade : String
  deriving DecidableEq

/-- Embedding of `CostAnalyzer._get_efficiency_grade`. -/
def getEfficiencyGrade (utilization_rate : ℚ) : String :=
  if 90 ≤ utilization_rate then "A"
  else if 80 ≤ utilization_rate then "B"
  else if 70 ≤ utilization_rate then "C"
  else if 60 ≤ utilization_rate then "D"
  else "F"

/-- Embedding of `CostAnalyzer.calculate_resource_efficiency`. -/
def calculate_resource_efficiency (resources idle_resources : List ResourceRecord) :
    EfficiencyResult :=
  let total_resources : ℤ := resources.length
  let idle_count : ℤ := idle_resources.length
  let utilization_rate : ℚ :=
    if total_resources = 0 then 0
    else ((total_resources - idle_count : ℤ) : ℚ) / (total_resources : ℚ) * 100
  { total_resources := total_resources,
    active_resources := total_resources - idle_count,
    idle_resources := idle_count,
    utilization_rate := round2 utilization_rate,
    efficiency_grade := getEfficiencyGrade utilization_rate }

/-! ## Rightsizing Analyzer (`src/analyzers/rightsizing_analyzer.py`) -/

/-- Embedding of Python `round(x, 1)` (used for the copied utilization
metrics and the savings/increase percentage fields). -/
def round1 (x : ℚ) : ℚ := (roundHalfEven (x * 10) : ℚ) / 10

structure MachineSpec where
  vcpus : ℚ
  memory_gb : ℚ
  cost_per_hour : ℚ
  deriving DecidableEq

/-- The static GCP machine-type catalog, in source order. -/
def MACHINE_TYPES : List (String × MachineSpec) :=
  [ ("e2-micro",      ⟨0.25, 1,  0.008⟩),
    ("e2-small",      ⟨0.5,  2,  0.016⟩),
    ("e2-medium",     ⟨1,    4,  0.033⟩),
    ("e2-standard-2", ⟨2,    8,  0.067⟩),
    ("e2-standard-4", ⟨4,    16, 0.134⟩),
    ("e2-standard-8", ⟨8,    32, 0.268⟩),
    ("n2-standard-2", ⟨2,    8,  0.097⟩),
    ("n2-standard-4", ⟨4,    16, 0.194⟩),
    ("n2-standard-8", ⟨8,    32, 0.388⟩),
    ("n2-highmem-2",  ⟨2,    16, 0.131⟩),
    ("n2-highmem-4",  ⟨4,    32, 0.262⟩),
    ("n2-highcpu-2",  ⟨2,    2,  0.072⟩),
    ("n2-highcpu-4",  ⟨4,    4,  0.144⟩) ]

/-- First element of minimal cost.  `candidates.sort(key=cost)` is stable,
so `candidates[0]` after sorting is exactly the earliest minimum. -/
def selectMinCost : List (String × MachineSpec) → Option (String × MachineSpec)
  | [] => none
  | e :: rest =>
    match selectMinCost rest with
    | none => some e
    | some m => if m.2.cost_per_hour < e.2.cost_per_hour then some m else some e

theorem selectMinCost_eq_none_iff (l : List (String × MachineSpec)) :
    selectMinCost l = none ↔ l = [] := by
  cases l with
  | nil => simp [selectMinCost]
  | cons e rest =>
    simp only [selectMinCost]
    cases selectMinCost rest with
    | none => simp
    | some m =>
      by_cases hc : m.2.cost_per_hour < e.2.cost_per_hour <;> simp [hc]

theorem selectMinCost_mem {l : List (String × MachineSpec)}
    {e : String × MachineSpec} (h : selectMinCost l = some e) : e ∈ l := by
  induction l with
  | nil => simp [selectMinCost] at h
  | cons x rest ih =>
    cases hr : selectMinCost rest with
    | none =>
      simp only [selectMinCost, hr, Option.some.injEq] at h
      subst h
      exact List.mem_cons_self x rest
    | some m =>
      simp only [selectMinCost, hr] at h
      by_cases hc : m.2.cost_per_hour < x.2.cost_per_hour
      · rw [if_pos hc] at h
        simp only [Option.some.injEq] at h
        subst h
        exact List.mem_cons_of_mem x (ih hr)
      · rw [if_neg hc] at h
        simp only [Option.some.injEq] at h
        subst h
        exact List.mem_cons_self x rest

theorem selectMinCost_le {l : List (String × MachineSpec)} :
    ∀ {e : String × MachineSpec}, selectMinCost l = some e →
    ∀ y ∈ l, e.2.cost_per_hour ≤ y.2.cost_per_hour := by
  induction l with
  | nil => intro e h; simp [selectMinCost] at h
  | cons x rest ih =>
    intro e h y hy
    cases hr : selectMinCost rest with
    | none =>
      simp only [selectMinCost, hr, Option.some.injEq] at h
      subst h
      rcases List.mem_cons.mp hy with rfl | hy
      · exact le_refl _
      · exact absurd ((selectMinCost_eq_none_iff rest).mp hr ▸ hy) (List.not_mem_nil y)
    | some m =>
      simp only [selectMinCost, hr] at h
      by_cases hc : m.2.cost_per_hour < x.2.cost_per_hour
      · rw [if_pos hc] at h
        simp only [Option.some.injEq] at h
        subst h
        rcases List.mem_cons.mp hy with rfl | hy
        · exact le_of_lt hc
        · exact ih hr y hy
      · rw [if_neg hc] at h
        simp only [Option.some.injEq] at h
        subst h
        rcases List.mem_cons.mp hy with rfl | hy
        · exact le_refl _
        · exact le_trans (not_lt.mp hc) (ih hr y hy)

/-- A `lookup` hit names a member of the association list. -/
theorem lookup_mem {l : List (String × MachineSpec)} {k : String}
    {v : MachineSpec} (h : List.lookup k l = some v) : (k, v) ∈ l := by
  induction l with
  | nil => simp [List.lookup] at h
  | cons x rest ih =>
    rcases x with ⟨k2, v2⟩
    rw [List.lookup_cons] at h
    by_cases hk : k = k2
    · subst hk
      simp only [beq_self_eq_true, Option.some.injEq] at h
      subst h
      exact List.mem_cons_self _ _
    · have hb : (k == k2) = false := beq_eq_false_iff_ne.mpr hk
      rw [hb] at h
      exact List.mem_cons_of_mem _ (ih h)

/-- Over an association list with distinct keys, membership determines the
`lookup` result. -/
theorem mem_lookup {l : List (String × MachineSpec)} {k : String}
    {v : MachineSpec} (hnd : (l.map Prod.fst).Nodup) (h : (k, v) ∈ l) :
    List.lookup k l = some v := by
  induction l with
  | nil => simp at h
  | cons x rest ih =>
    rcases x with ⟨k2, v2⟩
    simp only [List.map_cons, List.nodup_cons] at hnd
    rw [List.lookup_cons]
    by_cases hk : k = k2
    · subst hk
      rcases List.mem_cons.mp h with heq | hmem
      · rw [Prod.mk.injEq] at heq
        rcases heq with ⟨_, rfl⟩
        simp
      · exact absurd (List.mem_map.mpr ⟨(k, v), hmem, rfl⟩) hnd.1
    · have hb : (k == k2) = false := beq_eq_false_iff_ne.mpr hk
      rw [hb]
      have hmem : (k, v) ∈ rest := by
        rcases List.mem_cons.mp h with heq | hmem
        · rw [Prod.mk.injEq] at heq
          exact absurd heq.1 hk
        · exact hmem
      exact ih hnd.2 hmem

theorem machine_types_keys_nodup : (MACHINE_TYPES.map Prod.fst).Nodup := by
  decide

/-- The candidate filter of `_find_smaller_instance`: capacity covers peak
load with a 20% buffer and the hourly cost is strictly lower. -/
def smallerPred (current_spec : MachineSpec) (peak_cpu peak_memory : ℚ)
    (e : String × MachineSpec) : Bool :=
  let required_vcpus := current_spec.vcpus * peak_cpu / 100 * 1.2
  let required_memory := current_spec.memory_gb * peak_memory / 100 * 1.2
  decide (required_vcpus ≤ e.2.vcpus) && decide (required_memory ≤ e.2.memory_gb) &&
    decide (e.2.cost_per_hour < current_spec.cost_per_hour)

/-- Embedding of `RightsizingAnalyzer._find_smaller_instance`. -/
def find_smaller_instance (current_spec : MachineSpec)
    (peak_cpu peak_memory : ℚ) : Option String :=
  (selectMinCost (MACHINE_TYPES.filter
    (smallerPred current_spec peak_cpu peak_memory))).map Prod.fst

/-- The candidate filter of `_find_larger_instance`: 1.5× capacity on each
breached dimension and a strictly higher hourly cost. -/
def largerPred (current_spec : MachineSpec) (peak_cpu peak_memory : ℚ)
    (e : String × MachineSpec) : Bool :=
  let cpu_multiplier : ℚ := if 90 < peak_cpu then 1.5 else 1.0
  let memory_multiplier : ℚ := if 90 < peak_memory then 1.5 else 1.0
  let required_vcpus := current_spec.vcpus * cpu_multiplier
  let required_memory := current_spec.memory_gb * memory_multiplier
  decide (required_vcpus ≤ e.2.vcpus) && decide (required_memory ≤ e.2.memory_gb) &&
    decide (current_spec.cost_per_hour < e.2.cost_per_hour)

/-- Embedding of `RightsizingAnalyzer._find_larger_instance`. -/
def find_larger_instance (current_spec : MachineSpec)
    (peak_cpu peak_memory : ℚ) : Option String :=
  (selectMinCost (MACHINE_TYPES.filter
    (largerPred current_spec peak_cpu peak_memory))).map Prod.fst

/-- A rightsizing recommendation record.  The human-readable `reason`
f-string is presentation-only and omitted; fields present only in one
branch ("downsize" vs "upsize") are `Option`s. -/
structure RightsizingRec where
  recommendation_type : String
  recommended_type : String
  current_monthly_cost : ℚ
  recommended_monthly_cost : ℚ
  estimated_monthly_savings : Option ℚ
  estimated_monthly_increase : Option ℚ
  savings_percentage : Option ℚ
  increase_percentage : Option ℚ
  confidence : String
  um_avg_cpu : ℚ
  um_avg_memory : ℚ
  um_peak_cpu : ℚ
  um_peak_memory : ℚ
  deriving DecidableEq

/-- The record built in the "downsize" branch of
`_get_rightsizing_recommendation`. -/
def mkDownsize (current_spec new_spec : MachineSpec) (recommended_type : String)
    (avg_cpu avg_memory peak_cpu peak_memory : ℚ) : RightsizingRec :=
  let monthly_current := current_spec.cost_per_hour * 24 * 30
  let monthly_new := new_spec.cost_per_hour * 24 * 30
  let monthly_savings := monthly_current - monthly_new
  { recommendation_type := "downsize",
    recommended_type := recommended_type,
    current_monthly_cost := round2 monthly_current,
    recommended_monthly_cost := round2 monthly_new,
    estimated_monthly_savings := some (round2 monthly_savings),
    estimated_monthly_increase := none,
    savings_percentage := some (round1 (monthly_savings / monthly_current * 100)),
    increase_percentage := none,
    confidence := if avg_cpu < 10 then "medium" else "low",
    um_avg_cpu := round1 avg_cpu,
    um_avg_memory := round1 avg_memory,
    um_peak_cpu := round1 peak_cpu,
    um_peak_memory := round1 peak_memory }

/-- The record built in the "upsize" branch of
`_get_rightsizing_recommendation`. -/
def mkUpsize (current_spec new_spec : MachineSpec) (recommended_type : String)
    (avg_cpu avg_memory peak_cpu peak_memory : ℚ) : RightsizingRec :=
  let monthly_current := current_spec.cost_per_hour * 24 * 30
  let monthly_new := new_spec.cost_per_hour * 24 * 30
  let monthly_increase := monthly_new - monthly_current
  { recommendation_type := "upsize",
    recommended_type := recommended_type,
    current_monthly_cost := round2 monthly_current,
    recommended_monthly_cost := round2 monthly_new,
    estimated_monthly_savings := none,
    estimated_monthly_increase := some (round2 monthly_increase),
    savings_percentage := none,
    increase_percentage := some (round1 (monthly_increase / monthly_current * 100)),
    confidence := "medium",
    um_avg_cpu := round1 avg_cpu,
    um_avg_memory := round1 avg_memory,
    um_peak_cpu := round1 peak_cpu,
    um_peak_memory := round1 peak_memory }

/-- The "downsize" branch: find a smaller instance, check it is a distinct
(non-empty) type, and build the recommendation. -/
def downsizeRec (current_type : String) (current_spec : MachineSpec)
    (avg_cpu avg_memory peak_cpu peak_memory : ℚ) : Option RightsizingRec :=
  match find_smaller_instance current_spec peak_cpu peak_memory with
  | some recommended_type =>
    if recommended_type ≠ "" ∧ recommended_type ≠ current_type then
      match List.lookup recommended_type MACHINE_TYPES with
      | some new_spec =>
        some (mkDownsize current_spec new_spec recommended_type
          avg_cpu avg_memory peak_cpu peak_memory)
      | none => none
    else none
  | none => none

/-- The "upsize" branch. -/
def upsizeRec (current_type : String) (current_spec : MachineSpec)
    (avg_cpu avg_memory peak_cpu peak_memory : ℚ) : Option RightsizingRec :=
  match find_larger_instance current_spec peak_cpu peak_memory with
  | some recommended_type =>
    if recommended_type ≠ "" ∧ recommended_type ≠ current_type then
      match List.lookup recommended_type MACHINE_TYPES with
      | some new_spec =>
        some (mkUpsize current_spec new_spec recommended_type
          avg_cpu avg_memory peak_cpu peak_memory)
      | none => none
    else none
  | none => none

/-- Embedding of `RightsizingAnalyzer._get_rightsizing_recommendation`.
An unknown `current_type` would raise a `KeyError` that `analyze_instance`
catches, yielding no recommendation, hence `none` here. -/
def get_rightsizing_recommendation (current_type : String)
    (avg_cpu avg_memory peak_cpu peak_memory : ℚ) : Option RightsizingRec :=
  match List.lookup current_type MACHINE_TYPES with
  | none => none
  | some current_spec =>
    if avg_cpu < 20 ∧ avg_memory < 30 ∧ peak_cpu < 40 then
      downsizeRec current_type current_spec avg_cpu avg_memory peak_cpu peak_memory
    else if 90 < peak_cpu ∨ 90 < peak_memory then
      upsizeRec current_type current_spec avg_cpu avg_memory peak_cpu peak_memory
    else none

/-- Every catalog hourly cost is a multiple of $0.001, so monthly figures
(×24×30) have at most two decimals and `round(·, 2)` is the identity on
their differences. -/
theorem catalog_monthly_exact : ∀ e1 ∈ MACHINE_TYPES, ∀ e2 ∈ MACHINE_TYPES,
    round2 (e1.2.cost_per_hour * 24 * 30 - e2.2.cost_per_hour * 24 * 30)
      = (e1.2.cost_per_hour - e2.2.cost_per_hour) * 24 * 30 := by
  decide

theorem machine_types_keys_nonempty : ∀ e ∈ MACHINE_TYPES, e.1 ≠ "" := by
  decide

/-! ## Recommendation Engine (`src/analyzers/recommendation_engine.py`)

The engine's state is its list of accumulated recommendation dicts; each
producer method appends freshly created dicts, so a list index identifies
a dict object.  `get_prioritized_recommendations` mutates the surviving
dicts in place (adding `rank` / `priority_label`); it is embedded as a
function returning the output list together with the updated state. -/

inductive RecommendationPriority where
  | CRITICAL
  | HIGH
  | MEDIUM
  | LOW
  deriving DecidableEq

/-- The `Enum` value: CRITICAL=1, HIGH=2, MEDIUM=3, LOW=4. -/
def RecommendationPriority.value : RecommendationPriority → ℕ
  | .CRITICAL => 1
  | .HIGH => 2
  | .MEDIUM => 3
  | .LOW => 4

/-- The `Enum` member `.name` string. -/
def RecommendationPriority.pyName : RecommendationPriority → String
  | .CRITICAL => "CRITICAL"
  | .HIGH => "HIGH"
  | .MEDIUM => "MEDIUM"
  | .LOW => "LOW"

/-- An engine recommendation dict.  Presentation-only fields (action
strings, automation flags, copied type names and metrics) are omitted;
`estimated_monthly_savings` is `none` when the dict lacks the key (cost
anomalies), mirroring `rec.get('estimated_monthly_savings', 0)`. -/
structure EngineRec where
  rtype : String
  resource_name : Option String
  estimated_monthly_savings : Option ℚ
  estimated_monthly_increase : Option ℚ
  priority : RecommendationPriority
  confidence : String
  risk_level : String
  rank : Option ℕ
  priority_label : Option String
  deriving DecidableEq

/-- Embedding of `rec.get('estimated_monthly_savings', 0)`. -/
def savingsD (r : EngineRec) : ℚ := r.estimated_monthly_savings.getD 0

structure IdleInstance where
  name : Option String
  id : Option String
  status : Option String
  machine_type : Option String

/-- Embedding of `s.split('/')[-1]`. -/
def splitSlashLast (s : String) : String := (s.splitOn "/").getLastD s

/-- The static monthly cost table of `_estimate_instance_cost`. -/
def instance_cost_map : List (String × ℚ) :=
  [ ("e2-micro", 5.76), ("e2-small", 11.52), ("e2-medium", 23.76),
    ("e2-standard-2", 48.24), ("e2-standard-4", 96.48),
    ("n2-standard-2", 69.84), ("n2-standard-4", 139.68) ]

/-- Embedding of `RecommendationEngine._estimate_instance_cost`. -/
def estimate_instance_cost (inst : IdleInstance) : ℚ :=
  let machine_type := splitSlashLast (inst.machine_type.getD "")
  (List.lookup machine_type instance_cost_map).getD 50.0

/-- Embedding of `RecommendationEngine.add_idle_instance_recommendations`
(the list of dicts appended to the engine state). -/
def add_idle_instance_recommendations (idle_instances : List IdleInstance) :
    List EngineRec :=
  idle_instances.map fun inst =>
    let estimated_monthly_cost := estimate_instance_cost inst
    { rtype := "idle_instance",
      resource_name := inst.name,
      estimated_monthly_savings := some estimated_monthly_cost,
      estimated_monthly_increase := none,
      priority := if 100 < estimated_monthly_cost then .HIGH else .MEDIUM,
      confidence := "high",
      risk_level := "low",
      rank := none,
      priority_label := none }

/-- Embedding of `RecommendationEngine._calculate_priority`. -/
def calculate_priority (monthly_savings : ℚ) (confidence : String) :
    RecommendationPriority :=
  if 500 < monthly_savings ∧ (confidence = "high" ∨ confidence = "medium") then .CRITICAL
  else if 100 < monthly_savings then .HIGH
  else if 20 < monthly_savings then .MEDIUM
  else .LOW

/-- Input of `add_rightsizing_recommendations`: the analyzer's
recommendation dict after `analyze_instance` added the instance fields. -/
structure RightsizingEngineInput where
  payload : RightsizingRec
  instance_name : Option String
  instance_id : Option String

/-- Embedding of `RecommendationEngine.add_rightsizing_recommendations`. -/
def add_rightsizing_recommendations (rightsizing_recs : List RightsizingEngineInput) :
    List EngineRec :=
  rightsizing_recs.map fun i =>
    let priority := calculate_priority
      (i.payload.estimated_monthly_savings.getD 0) i.payload.confidence
    { rtype := "rightsizing",
      resource_name := i.instance_name,
      estimated_monthly_savings := some (i.payload.estimated_monthly_savings.getD 0),
      estimated_monthly_increase := some (i.payload.estimated_monthly_increase.getD 0),
      priority := priority,
      confidence := i.payload.confidence,
      risk_level := if i.payload.recommendation_type = "downsize" then "medium" else "low",
      rank := none,
      priority_label := none }

/-- Substring test over character lists (embedding of Python `in`). -/
def subListAux (needle : List Char) : List Char → Bool
  | [] => needle.isEmpty
  | c :: rest => needle.isPrefixOf (c :: rest) || subListAux needle rest

/-- Embedding of Python `needle in hay` on strings. -/
def hasSubstr (hay needle : String) : Bool := subListAux needle.data hay.data

/-- Embedding of `RecommendationEngine._estimate_resource_cost`. -/
def estimate_resource_cost (resource : ResourceRecord) : ℚ :=
  let resource_type := resource.rtype.getD ""
  if hasSubstr resource_type.toLower "disk" then (resource.size_gb.getD 100) * 0.04
  else if hasSubstr resource_type.toLower "ip" then 7.0
  else if hasSubstr resource_type.toLower "snapshot" then (resource.size_gb.getD 50) * 0.026
  else 10.0

/-- Embedding of `RecommendationEngine.add_unused_resource_recommendations`. -/
def add_unused_resource_recommendations (unused_resources : List ResourceRecord) :
    List EngineRec :=
  unused_resources.map fun resource =>
    let resource_type := resource.rtype.getD "unknown"
    let estimated_cost := estimate_resource_cost resource
    { rtype := "unused_resource",
      resource_name := resource.name,
      estimated_monthly_savings := some estimated_cost,
      estimated_monthly_increase := none,
      priority := if 50 < estimated_cost then .MEDIUM else .LOW,
      confidence := "high",
      risk_level := if hasSubstr resource_type "snapshot" then "low" else "medium",
      rank := none,
      priority_label := none }

/-- Embedding of `RecommendationEngine.add_cost_anomaly_recommendations`.
The anomaly dicts carry no `estimated_monthly_savings` key. -/
def add_cost_anomaly_recommendations (anomalies : List Anomaly) : List EngineRec :=
  anomalies.map fun anomaly =>
    { rtype := "cost_anomaly",
      resource_name := none,
      estimated_monthly_savings := none,
      estimated_monthly_increase := none,
      priority := if anomaly.severity = "high" then .CRITICAL else .HIGH,
      confidence := "medium",
      risk_level := "none",
      rank := none,
      priority_label := none }

/-- The sort key of `get_prioritized_recommendations`:
`(priority.value, -savings)` compared lexicographically. -/
def engineKey (r : EngineRec) : ℕ ×ₗ ℚ := toLex (r.priority.value, -savingsD r)

/-- The in-place mutation `rec['rank'] = i; rec['priority_label'] = ...`. -/
def rankify (r : EngineRec) (n : ℕ) : EngineRec :=
  { r with rank := some n, priority_label := some r.priority.pyName }

/-- Strip the two fields the ranking pass mutates. -/
def eraseRank (r : EngineRec) : EngineRec :=
  { r with rank := none, priority_label := none }

/-- Filtered (by `min_savings`) and sorted recommendations, each paired
with its index in the engine state (= dict identity). -/
def gpSorted (recs : List EngineRec) (min_savings : ℚ) : List (ℕ × EngineRec) :=
  sSort (fun p => engineKey p.2)
    ((recs.enum).filter fun p => decide (min_savings ≤ savingsD p.2))

/-- `sorted_recs[:max_recommendations]` under `if max_recommendations:`
(Python truthiness: `None` and `0` mean no truncation). -/
def gpTruncated (recs : List EngineRec) (max_recommendations : Option ℕ)
    (min_savings : ℚ) : List (ℕ × EngineRec) :=
  match max_recommendations with
  | none => gpSorted recs min_savings
  | some m => if m = 0 then gpSorted recs min_savings
              else (gpSorted recs min_savings).take m

/-- The surviving, ranked dicts (state index, mutated dict). -/
def gpOut (recs : List EngineRec) (max_recommendations : Option ℕ)
    (min_savings : ℚ) : List (ℕ × EngineRec) :=
  (gpTruncated recs max_recommendations min_savings).enum.map
    fun q => (q.2.1, rankify q.2.2 (q.1 + 1))

/-- The engine state after the in-place mutation: the dict at index `j`
is replaced by its ranked version when it survived. -/
def gpPatch (out : List (ℕ × EngineRec)) (recs : List EngineRec) : List EngineRec :=
  recs.enum.map fun p =>
    match out.find? (fun q => q.1 == p.1) with
    | some q => q.2
    | none => p.2

/-- Embedding of `RecommendationEngine.get_prioritized_recommendations`:
returns the list the method returns together with the engine state after
the in-place mutation of the surviving dicts. -/
def get_prioritized_recommendations (recs : List EngineRec)
    (max_recommendations : Option ℕ) (min_savings : ℚ) :
    List EngineRec × List EngineRec :=
  ((gpOut recs max_recommendations min_savings).map Prod.snd,
   gpPatch (gpOut recs max_recommendations min_savings) recs)

/-! ### List lemmas supporting the ranking proofs -/

theorem mem_enumFrom_le {l : List EngineRec} :
    ∀ {n : ℕ} {p : ℕ × EngineRec}, p ∈ l.enumFrom n → n ≤ p.1 := by
  induction l with
  | nil => intro n p h; simp [List.enumFrom] at h
  | cons x xs ih =>
    intro n p h
    simp only [List.enumFrom, List.mem_cons] at h
    rcases h with rfl | h
    · exact le_refl n
    · exact le_trans (Nat.le_succ n) (ih h)

theorem mem_of_mem_enumFrom {l : List (ℕ × EngineRec)} :
    ∀ {n : ℕ} {p : ℕ × (ℕ × EngineRec)}, p ∈ l.enumFrom n → p.2 ∈ l := by
  induction l with
  | nil => intro n p h; simp [List.enumFrom] at h
  | cons x xs ih =>
    intro n p h
    simp only [List.enumFrom, List.mem_cons] at h
    rcases h with rfl | h
    · exact List.mem_cons_self x xs
    · exact List.mem_cons_of_mem x (ih h)

theorem enumFrom_pairwise (l : List EngineRec) :
    ∀ n, (l.enumFrom n).Pairwise (fun a b => a.1 < b.1) := by
  induction l with
  | nil => intro n; simp [List.enumFrom]
  | cons x xs ih =>
    intro n
    simp only [List.enumFrom]
    refine List.pairwise_cons.mpr ⟨?_, ih (n + 1)⟩
    intro y hy
    have h := mem_enumFrom_le hy
    omega

theorem mem_enumFrom_unique {l : List EngineRec} :
    ∀ {n j : ℕ} {a b : EngineRec},
      (j, a) ∈ l.enumFrom n → (j, b) ∈ l.enumFrom n → a = b := by
  induction l with
  | nil => intro n j a b h; simp [List.enumFrom] at h
  | cons x xs ih =>
    intro n j a b ha hb
    simp only [List.enumFrom, List.mem_cons] at ha hb
    rcases ha with ha | ha <;> rcases hb with hb | hb
    · rw [Prod.mk.injEq] at ha hb
      rw [ha.2, hb.2]
    · exfalso
      rw [Prod.mk.injEq] at ha
      have h2 : n + 1 ≤ j := mem_enumFrom_le hb
      omega
    · exfalso
      rw [Prod.mk.injEq] at hb
      have h2 : n + 1 ≤ j := mem_enumFrom_le ha
      omega
    · exact ih ha hb

theorem forall₂_filter {α : Type} {R : α → α → Prop} {p q : α → Bool}
    (hpq : ∀ a b, R a b → p a = q b) :
    ∀ {l₁ l₂ : List α}, List.Forall₂ R l₁ l₂ →
      List.Forall₂ R (l₁.filter p) (l₂.filter q) := by
  intro l₁ l₂ h
  induction h with
  | nil => simp
  | @cons a b t₁ t₂ hab ht ih =>
    by_cases hpa : p a = true
    · have hqb : q b = true := (hpq a b hab) ▸ hpa
      simp only [List.filter_cons, hpa, hqb, if_true]
      exact List.Forall₂.cons hab ih
    · rw [Bool.not_eq_true] at hpa
      have hqb : q b = false := (hpq a b hab) ▸ hpa
      simp only [List.filter_cons, hpa, hqb, Bool.false_eq_true, if_false]
      exact ih

theorem forall₂_take {α : Type} {R : α → α → Prop} :
    ∀ {l₁ l₂ : List α}, List.Forall₂ R l₁ l₂ →
      ∀ n, List.Forall₂ R (l₁.take n) (l₂.take n) := by
  intro l₁ l₂ h
  induction h with
  | nil => intro n; simp
  | @cons a b t₁ t₂ hab ht ih =>
    intro n
    cases n with
    | zero => simp
    | succ m =>
      simp only [List.take_succ_cons]
      exact List.Forall₂.cons hab (ih m)

theorem forall₂_enumFrom {α : Type} {R : α → α → Prop} :
    ∀ {l₁ l₂ : List α}, List.Forall₂ R l₁ l₂ → ∀ n,
      List.Forall₂ (fun p q => p.1 = q.1 ∧ R p.2 q.2)
        (l₁.enumFrom n) (l₂.enumFrom n) := by
  intro l₁ l₂ h
  induction h with
  | nil => intro n; simp [List.enumFrom]
  | @cons a b t₁ t₂ hab ht ih =>
    intro n
    simp only [List.enumFrom]
    exact List.Forall₂.cons ⟨rfl, hab⟩ (ih (n + 1))

theorem map_eq_of_forall₂ {α β : Type} {R : α → α → Prop} {f g : α → β}
    (hfg : ∀ a b, R a b → f a = g b) :
    ∀ {l₁ l₂ : List α}, List.Forall₂ R l₁ l₂ → l₁.map f = l₂.map g := by
  intro l₁ l₂ h
  induction h with
  | nil => rfl
  | @cons a b t₁ t₂ hab ht ih =>
    simp only [List.map_cons]
    rw [hfg a b hab, ih]

theorem forall₂_map_self {α : Type} {R : α → α → Prop} {k : α → α} :
    ∀ {l : List α}, (∀ p ∈ l, R p (k p)) → List.Forall₂ R l (l.map k) := by
  intro l
  induction l with
  | nil => intro h; simp
  | cons x xs ih =>
    intro h
    simp only [List.map_cons]
    exact List.Forall₂.cons (h x (List.mem_cons_self x xs))
      (ih fun p hp => h p (List.mem_cons_of_mem x hp))

theorem enumFrom_map_enumFrom {α β : Type} (h : (ℕ × α) → β) :
    ∀ (l : List α) (n : ℕ),
      ((l.enumFrom n).map h).enumFrom n = (l.enumFrom n).map (fun p => (p.1, h p)) := by
  intro l
  induction l with
  | nil => intro n; simp [List.enumFrom]
  | cons x xs ih =>
    intro n
    simp only [List.enumFrom, List.map_cons]
    rw [ih (n + 1)]

theorem eraseRank_rankify (r : EngineRec) (n : ℕ) :
    eraseRank (rankify r n) = eraseRank r := rfl

theorem rankify_congr {a b : EngineRec} (h : eraseRank a = eraseRank b) (n : ℕ) :
    rankify a n = rankify b n := by
  cases a
  cases b
  simp only [eraseRank, EngineRec.mk.injEq] at h
  obtain ⟨h1, h2, h3, h4, h5, h6, h7, -, -⟩ := h
  simp [rankify, h1, h2, h3, h4, h5, h6, h7]

theorem engineKey_congr {a b : EngineRec} (h : eraseRank a = eraseRank b) :
    engineKey a = engineKey b := by
  cases a
  cases b
  simp only [eraseRank, EngineRec.mk.injEq] at h
  obtain ⟨-, -, h3, -, h5, -, -, -, -⟩ := h
  simp [engineKey, savingsD, h3, h5]

theorem savingsD_congr {a b : EngineRec} (h : eraseRank a = eraseRank b) :
    savingsD a = savingsD b := by
  cases a
  cases b
  simp only [eraseRank, EngineRec.mk.injEq] at h
  obtain ⟨-, -, h3, -, -, -, -, -, -⟩ := h
  simp [savingsD, h3]

/-- Map the ranking function over an enumerated list and strip the ranks:
the ranks vanish. -/
theorem enum_rankify_erase (l : List (ℕ × EngineRec)) :
    ∀ n, ((l.enumFrom n).map (fun q => rankify q.2.2 (q.1 + 1))).map eraseRank
      = (l.map Prod.snd).map eraseRank := by
  induction l with
  | nil => intro n; rfl
  | cons p t ih =>
    intro n
    simp only [List.enumFrom, List.map_cons]
    rw [ih (n + 1), eraseRank_rankify]

/-- The ranks produced by the ranking pass are `n+1, n+2, …` in order. -/
theorem enum_rankify_rank (l : List (ℕ × EngineRec)) :
    ∀ n, ((l.enumFrom n).map (fun q => rankify q.2.2 (q.1 + 1))).map (fun r => r.rank)
      = (List.range' (n + 1) l.length).map some := by
  induction l with
  | nil => intro n; rfl
  | cons p t ih =>
    intro n
    simp only [List.enumFrom, List.map_cons, List.length_cons, List.range']
    rw [ih (n + 1)]
    rfl

theorem engineKey_lt_iff {a b : EngineRec} : engineKey a < engineKey b ↔
    a.priority.value < b.priority.value ∨
      (a.priority.value = b.priority.value ∧ savingsD b < savingsD a) := by
  unfold engineKey
  rw [Prod.Lex.lt_iff]
  simp only [neg_lt_neg_iff]

theorem engineKey_eq_iff {a b : EngineRec} : engineKey a = engineKey b ↔
    a.priority.value = b.priority.value ∧ savingsD a = savingsD b := by
  unfold engineKey
  constructor
  · intro h
    have h2 : ((a.priority.value, -savingsD a) : ℕ × ℚ) = (b.priority.value, -savingsD b) :=
      toLex.injective h
    rw [Prod.mk.injEq] at h2
    exact ⟨h2.1, neg_inj.mp h2.2⟩
  · intro ⟨h1, h2⟩
    rw [h1, h2]

/-! ## Claim theorems -/

/-- C1: for every known catalog machine type and metrics with
avg_cpu < 20, avg_memory < 30 and peak_cpu < 40, the sizing decision
returns a downsize recommendation exactly when the catalog contains a
machine type covering the current type's peak load scaled by a 20% buffer
at a strictly lower hourly cost; the recommended type is the minimum-cost
such candidate, the savings are (current − candidate hourly cost) × 24 × 30,
and the confidence is "medium" if avg_cpu < 10 else "low"; with no
candidate, no recommendation is returned. -/
theorem c1_downsize_decision (current_type : String) (current_spec : MachineSpec)
    (hlk : List.lookup current_type MACHINE_TYPES = some current_spec)
    (avg_cpu avg_memory peak_cpu peak_memory : ℚ)
    (h1 : avg_cpu < 20) (h2 : avg_memory < 30) (h3 : peak_cpu < 40) :
    ((¬ ∃ e ∈ MACHINE_TYPES, smallerPred current_spec peak_cpu peak_memory e = true) →
      get_rightsizing_recommendation current_type avg_cpu avg_memory peak_cpu peak_memory
        = none) ∧
    ((∃ e ∈ MACHINE_TYPES, smallerPred current_spec peak_cpu peak_memory e = true) ↔
      ∃ r, get_rightsizing_recommendation current_type avg_cpu avg_memory peak_cpu peak_memory
          = some r ∧ r.recommendation_type = "downsize") ∧
    (∀ r, get_rightsizing_recommendation current_type avg_cpu avg_memory peak_cpu peak_memory
        = some r →
      r.recommendation_type = "downsize" ∧
      (∃ s, List.lookup r.recommended_type MACHINE_TYPES = some s ∧
        smallerPred current_spec peak_cpu peak_memory (r.recommended_type, s) = true ∧
        (∀ e ∈ MACHINE_TYPES, smallerPred current_spec peak_cpu peak_memory e = true →
          s.cost_per_hour ≤ e.2.cost_per_hour) ∧
        r.estimated_monthly_savings
          = some ((current_spec.cost_per_hour - s.cost_per_hour) * 24 * 30)) ∧
      r.confidence = (if avg_cpu < 10 then "medium" else "low")) := by
  have hgrr : get_rightsizing_recommendation current_type avg_cpu avg_memory peak_cpu peak_memory
      = downsizeRec current_type current_spec avg_cpu avg_memory peak_cpu peak_memory := by
    unfold get_rightsizing_recommendation
    rw [hlk]
    dsimp only
    rw [if_pos ⟨h1, h2, h3⟩]
  rw [hgrr]
  cases hf : selectMinCost (MACHINE_TYPES.filter
      (smallerPred current_spec peak_cpu peak_memory)) with
  | none =>
    have hfe : MACHINE_TYPES.filter (smallerPred current_spec peak_cpu peak_memory) = [] :=
      (selectMinCost_eq_none_iff _).mp hf
    have hno : ¬ ∃ e ∈ MACHINE_TYPES, smallerPred current_spec peak_cpu peak_memory e = true := by
      rintro ⟨e, he, hp⟩
      have hmem : e ∈ MACHINE_TYPES.filter (smallerPred current_spec peak_cpu peak_memory) :=
        List.mem_filter.mpr ⟨he, hp⟩
      rw [hfe] at hmem
      exact List.not_mem_nil e hmem
    have hres : downsizeRec current_type current_spec avg_cpu avg_memory peak_cpu peak_memory
        = none := by
      unfold downsizeRec find_smaller_instance
      rw [hf]
      rfl
    refine ⟨fun _ => hres, ⟨fun hex => absurd hex hno, ?_⟩, ?_⟩
    · rintro ⟨r, hr, _⟩
      rw [hres] at hr
      exact Option.noConfusion hr
    · intro r hr
      rw [hres] at hr
      exact Option.noConfusion hr
  | some e =>
    obtain ⟨t, s⟩ := e
    have hmemf := selectMinCost_mem hf
    rw [List.mem_filter] at hmemf
    obtain ⟨hmem, hpred⟩ := hmemf
    have hlkt : List.lookup t MACHINE_TYPES = some s :=
      mem_lookup machine_types_keys_nodup hmem
    have hslt : s.cost_per_hour < current_spec.cost_per_hour := by
      have hp := hpred
      unfold smallerPred at hp
      simp only [Bool.and_eq_true, decide_eq_true_eq] at hp
      exact hp.2
    have htne : t ≠ current_type := by
      intro he
      rw [he, hlk] at hlkt
      injection hlkt with hcs
      rw [← hcs] at hslt
      exact lt_irrefl _ hslt
    have htne0 : t ≠ "" := machine_types_keys_nonempty (t, s) hmem
    have hfind : find_smaller_instance current_spec peak_cpu peak_memory = some t := by
      unfold find_smaller_instance
      rw [hf]
      rfl
    have hres : downsizeRec current_type current_spec avg_cpu avg_memory peak_cpu peak_memory
        = some (mkDownsize current_spec s t avg_cpu avg_memory peak_cpu peak_memory) := by
      unfold downsizeRec
      rw [hfind]
      dsimp only
      rw [if_pos ⟨htne0, htne⟩, hlkt]
    have hex : ∃ e ∈ MACHINE_TYPES, smallerPred current_spec peak_cpu peak_memory e = true :=
      ⟨(t, s), hmem, hpred⟩
    refine ⟨fun hne => absurd hex hne, ⟨fun _ => ⟨_, hres, rfl⟩, fun _ => hex⟩, ?_⟩
    intro r hr
    rw [hres] at hr
    injection hr with hr2
    subst hr2
    refine ⟨rfl, ⟨s, hlkt, hpred, ?_, ?_⟩, rfl⟩
    · intro e he hpe
      exact selectMinCost_le hf e (List.mem_filter.mpr ⟨he, hpe⟩)
    · have hx := catalog_monthly_exact (current_type, current_spec) (lookup_mem hlk)
        (t, s) hmem
      simp only [mkDownsize]
      rw [hx]

/-- Witness for C1 at the spec's own example: "n2-standard-4" with
avg_cpu = 10, avg_memory = 15, peak_cpu = 25, peak_memory = 30. -/
theorem c1_downsize_decision_witness :
    (List.lookup "n2-standard-4" MACHINE_TYPES = some ⟨4, 16, 0.194⟩) ∧
    ((10 : ℚ) < 20 ∧ (15 : ℚ) < 30 ∧ (25 : ℚ) < 40) ∧
    (((¬ ∃ e ∈ MACHINE_TYPES, smallerPred ⟨4, 16, 0.194⟩ 25 30 e = true) →
      get_rightsizing_recommendation "n2-standard-4" 10 15 25 30 = none) ∧
    ((∃ e ∈ MACHINE_TYPES, smallerPred ⟨4, 16, 0.194⟩ 25 30 e = true) ↔
      ∃ r, get_rightsizing_recommendation "n2-standard-4" 10 15 25 30 = some r ∧
        r.recommendation_type = "downsize") ∧
    (∀ r, get_rightsizing_recommendation "n2-standard-4" 10 15 25 30 = some r →
      r.recommendation_type = "downsize" ∧
      (∃ s, List.lookup r.recommended_type MACHINE_TYPES = some s ∧
        smallerPred ⟨4, 16, 0.194⟩ 25 30 (r.recommended_type, s) = true ∧
        (∀ e ∈ MACHINE_TYPES, smallerPred ⟨4, 16, 0.194⟩ 25 30 e = true →
          s.cost_per_hour ≤ e.2.cost_per_hour) ∧
        r.estimated_monthly_savings
          = some (((0.194 : ℚ) - s.cost_per_hour) * 24 * 30)) ∧
      r.confidence = (if (10 : ℚ) < 10 then "medium" else "low"))) :=
  ⟨by decide, by norm_num,
    c1_downsize_decision "n2-standard-4" ⟨4, 16, 0.194⟩ (by decide) 10 15 25 30
      (by norm_num) (by norm_num) (by norm_num)⟩

/-- C2: for every known catalog machine type and metrics that fail the
downsize trigger but have peak_cpu > 90 or peak_memory > 90, the sizing
decision returns an upsize recommendation exactly when the catalog
contains a machine type providing 1.5× the current capacity on each
breached dimension (1.0× otherwise) at a strictly higher hourly cost; the
recommended type is the minimum-cost such candidate, the result reports
estimated_monthly_increase (no savings) equal to (candidate − current
hourly cost) × 24 × 30, and the confidence is always "medium"; with no
candidate, no recommendation is returned. -/
theorem c2_upsize_decision (current_type : String) (current_spec : MachineSpec)
    (hlk : List.lookup current_type MACHINE_TYPES = some current_spec)
    (avg_cpu avg_memory peak_cpu peak_memory : ℚ)
    (h0 : ¬ (avg_cpu < 20 ∧ avg_memory < 30 ∧ peak_cpu < 40))
    (htrig : 90 < peak_cpu ∨ 90 < peak_memory) :
    ((¬ ∃ e ∈ MACHINE_TYPES, largerPred current_spec peak_cpu peak_memory e = true) →
      get_rightsizing_recommendation current_type avg_cpu avg_memory peak_cpu peak_memory
        = none) ∧
    ((∃ e ∈ MACHINE_TYPES, largerPred current_spec peak_cpu peak_memory e = true) ↔
      ∃ r, get_rightsizing_recommendation current_type avg_cpu avg_memory peak_cpu peak_memory
          = some r ∧ r.recommendation_type = "upsize") ∧
    (∀ r, get_rightsizing_recommendation current_type avg_cpu avg_memory peak_cpu peak_memory
        = some r →
      r.recommendation_type = "upsize" ∧
      (∃ s, List.lookup r.recommended_type MACHINE_TYPES = some s ∧
        largerPred current_spec peak_cpu peak_memory (r.recommended_type, s) = true ∧
        (∀ e ∈ MACHINE_TYPES, largerPred current_spec peak_cpu peak_memory e = true →
          s.cost_per_hour ≤ e.2.cost_per_hour) ∧
        r.estimated_monthly_increase
          = some ((s.cost_per_hour - current_spec.cost_per_hour) * 24 * 30) ∧
        r.estimated_monthly_savings = none) ∧
      r.confidence = "medium") := by
  have hgrr : get_rightsizing_recommendation current_type avg_cpu avg_memory peak_cpu peak_memory
      = upsizeRec current_type current_spec avg_cpu avg_memory peak_cpu peak_memory := by
    unfold get_rightsizing_recommendation
    rw [hlk]
    dsimp only
    rw [if_neg h0, if_pos htrig]
  rw [hgrr]
  cases hf : selectMinCost (MACHINE_TYPES.filter
      (largerPred current_spec peak_cpu peak_memory)) with
  | none =>
    have hfe : MACHINE_TYPES.filter (largerPred current_spec peak_cpu peak_memory) = [] :=
      (selectMinCost_eq_none_iff _).mp hf
    have hno : ¬ ∃ e ∈ MACHINE_TYPES, largerPred current_spec peak_cpu peak_memory e = true := by
      rintro ⟨e, he, hp⟩
      have hmem : e ∈ MACHINE_TYPES.filter (largerPred current_spec peak_cpu peak_memory) :=
        List.mem_filter.mpr ⟨he, hp⟩
      rw [hfe] at hmem
      exact List.not_mem_nil e hmem
    have hres : upsizeRec current_type current_spec avg_cpu avg_memory peak_cpu peak_memory
        = none := by
      unfold upsizeRec find_larger_instance
      rw [hf]
      rfl
    refine ⟨fun _ => hres, ⟨fun hex => absurd hex hno, ?_⟩, ?_⟩
    · rintro ⟨r, hr, _⟩
      rw [hres] at hr
      exact Option.noConfusion hr
    · intro r hr
      rw [hres] at hr
      exact Option.noConfusion hr
  | some e =>
    obtain ⟨t, s⟩ := e
    have hmemf := selectMinCost_mem hf
    rw [List.mem_filter] at hmemf
    obtain ⟨hmem, hpred⟩ := hmemf
    have hlkt : List.lookup t MACHINE_TYPES = some s :=
      mem_lookup machine_types_keys_nodup hmem
    have hslt : current_spec.cost_per_hour < s.cost_per_hour := by
      have hp := hpred
      unfold largerPred at hp
      simp only [Bool.and_eq_true, decide_eq_true_eq] at hp
      exact hp.2
    have htne : t ≠ current_type := by
      intro he
      rw [he, hlk] at hlkt
      injection hlkt with hcs
      rw [← hcs] at hslt
      exact lt_irrefl _ hslt
    have htne0 : t ≠ "" := machine_types_keys_nonempty (t, s) hmem
    have hfind : find_larger_instance current_spec peak_cpu peak_memory = some t := by
      unfold find_larger_instance
      rw [hf]
      rfl
    have hres : upsizeRec current_type current_spec avg_cpu avg_memory peak_cpu peak_memory
        = some (mkUpsize current_spec s t avg_cpu avg_memory peak_cpu peak_memory) := by
      unfold upsizeRec
      rw [hfind]
      dsimp only
      rw [if_pos ⟨htne0, htne⟩, hlkt]
    have hex : ∃ e ∈ MACHINE_TYPES, largerPred current_spec peak_cpu peak_memory e = true :=
      ⟨(t, s), hmem, hpred⟩
    refine ⟨fun hne => absurd hex hne, ⟨fun _ => ⟨_, hres, rfl⟩, fun _ => hex⟩, ?_⟩
    intro r hr
    rw [hres] at hr
    injection hr with hr2
    subst hr2
    refine ⟨rfl, ⟨s, hlkt, hpred, ?_, ?_, rfl⟩, rfl⟩
    · intro e he hpe
      exact selectMinCost_le hf e (List.mem_filter.mpr ⟨he, hpe⟩)
    · have hx := catalog_monthly_exact (t, s) hmem (current_type, current_spec)
        (lookup_mem hlk)
      simp only [mkUpsize]
      rw [hx]

/-- Witness for C2 at the spec's own example: "n2-standard-4" with
peak_cpu = 95 (avg metrics 50/50, peak_memory 60). -/
theorem c2_upsize_decision_witness :
    (List.lookup "n2-standard-4" MACHINE_TYPES = some ⟨4, 16, 0.194⟩) ∧
    (¬ ((50 : ℚ) < 20 ∧ (50 : ℚ) < 30 ∧ (95 : ℚ) < 40)) ∧
    ((90 : ℚ) < 95 ∨ (90 : ℚ) < 60) ∧
    (((¬ ∃ e ∈ MACHINE_TYPES, largerPred ⟨4, 16, 0.194⟩ 95 60 e = true) →
      get_rightsizing_recommendation "n2-standard-4" 50 50 95 60 = none) ∧
    ((∃ e ∈ MACHINE_TYPES, largerPred ⟨4, 16, 0.194⟩ 95 60 e = true) ↔
      ∃ r, get_rightsizing_recommendation "n2-standard-4" 50 50 95 60 = some r ∧
        r.recommendation_type = "upsize") ∧
    (∀ r, get_rightsizing_recommendation "n2-standard-4" 50 50 95 60 = some r →
      r.recommendation_type = "upsize" ∧
      (∃ s, List.lookup r.recommended_type MACHINE_TYPES = some s ∧
        largerPred ⟨4, 16, 0.194⟩ 95 60 (r.recommended_type, s) = true ∧
        (∀ e ∈ MACHINE_TYPES, largerPred ⟨4, 16, 0.194⟩ 95 60 e = true →
          s.cost_per_hour ≤ e.2.cost_per_hour) ∧
        r.estimated_monthly_increase
          = some ((s.cost_per_hour - (0.194 : ℚ)) * 24 * 30) ∧
        r.estimated_monthly_savings = none) ∧
      r.confidence = "medium")) :=
  ⟨by decide, by norm_num,
    Or.inl (by norm_num),
    c2_upsize_decision "n2-standard-4" ⟨4, 16, 0.194⟩ (by decide) 50 50 95 60
      (by norm_num) (Or.inl (by norm_num))⟩

/-- C3: `get_prioritized_recommendations` returns exactly the accumulated
recommendations with savings ≥ minSavings (a permutation of that filter),
sorted ascending by priority ordinal then descending by savings with
remaining ties in stable insertion order, truncated to maxCount when
given; each surviving item gets a 1-based rank equal to its position and
a priority_label equal to its priority's name; and repeating the call
with identical arguments (on the mutated state) yields the identical
result and state. -/
theorem c3_prioritized_ranking (recs : List EngineRec) (mc : Option ℕ) (ms : ℚ) :
    (gpSorted recs ms).Perm
      ((recs.enum).filter fun p => decide (ms ≤ savingsD p.2)) ∧
    (gpSorted recs ms).Pairwise (fun a b =>
      a.2.priority.value < b.2.priority.value ∨
      (a.2.priority.value = b.2.priority.value ∧ savingsD b.2 < savingsD a.2) ∨
      (a.2.priority.value = b.2.priority.value ∧ savingsD a.2 = savingsD b.2 ∧
        a.1 < b.1)) ∧
    (mc = none →
      ((get_prioritized_recommendations recs mc ms).1).map eraseRank
        = ((gpSorted recs ms).map Prod.snd).map eraseRank) ∧
    (∀ m, mc = some m → 0 < m →
      ((get_prioritized_recommendations recs mc ms).1).map eraseRank
        = (((gpSorted recs ms).map Prod.snd).take m).map eraseRank) ∧
    ((get_prioritized_recommendations recs mc ms).1).map (fun r => r.rank)
      = (List.range' 1 ((get_prioritized_recommendations recs mc ms).1).length).map
          some ∧
    ((get_prioritized_recommendations recs mc ms).1).map (fun r => r.priority_label)
      = ((get_prioritized_recommendations recs mc ms).1).map
          (fun r => some r.priority.pyName) ∧
    get_prioritized_recommendations
        ((get_prioritized_recommendations recs mc ms).2) mc ms
      = get_prioritized_recommendations recs mc ms := by
  have hperm : (gpSorted recs ms).Perm
      ((recs.enum).filter fun p => decide (ms ≤ savingsD p.2)) :=
    sSort_perm _ _
  have hpair : (gpSorted recs ms).Pairwise (fun a b =>
      a.2.priority.value < b.2.priority.value ∨
      (a.2.priority.value = b.2.priority.value ∧ savingsD b.2 < savingsD a.2) ∨
      (a.2.priority.value = b.2.priority.value ∧ savingsD a.2 = savingsD b.2 ∧
        a.1 < b.1)) := by
    have hsorted := sSort_sorted (fun p : ℕ × EngineRec => engineKey p.2)
      ((recs.enum).filter fun p => decide (ms ≤ savingsD p.2))
    have hidx : ((recs.enum).filter fun p => decide (ms ≤ savingsD p.2)).Pairwise
        (fun a b => a.1 < b.1) := (enumFrom_pairwise recs 0).filter _
    have hidx2 : ((recs.enum).filter fun p => decide (ms ≤ savingsD p.2)).Pairwise
        (fun a b => engineKey a.2 = engineKey b.2 → a.1 < b.1) :=
      hidx.imp (fun {a b} h => fun _ : engineKey a.2 = engineKey b.2 => h)
    have hstab := sSort_pairwise (fun p : ℕ × EngineRec => engineKey p.2)
      (fun a b hne heq => absurd heq hne) hidx2
    refine (hsorted.and hstab).imp ?_
    intro a b hab
    obtain ⟨hle, hst⟩ := hab
    rcases lt_or_eq_of_le hle with hlt | heq
    · rcases engineKey_lt_iff.mp hlt with h | h
      · exact Or.inl h
      · exact Or.inr (Or.inl h)
    · have he2 := engineKey_eq_iff.mp heq
      exact Or.inr (Or.inr ⟨he2.1, he2.2, hst heq⟩)
  have herase : ∀ mcc : Option ℕ,
      ((get_prioritized_recommendations recs mcc ms).1).map eraseRank
        = ((gpTruncated recs mcc ms).map Prod.snd).map eraseRank := by
    intro mcc
    show (((gpTruncated recs mcc ms).enum.map
        (fun q => (q.2.1, rankify q.2.2 (q.1 + 1)))).map Prod.snd).map eraseRank
      = ((gpTruncated recs mcc ms).map Prod.snd).map eraseRank
    rw [List.map_map, List.map_map, List.map_map]
    have h := enum_rankify_erase (gpTruncated recs mcc ms) 0
    rw [List.map_map, List.map_map] at h
    exact h
  have hlen : ((get_prioritized_recommendations recs mc ms).1).length
      = (gpTruncated recs mc ms).length := by
    show ((gpOut recs mc ms).map Prod.snd).length = _
    rw [List.length_map]
    unfold gpOut
    rw [List.length_map, List.enum_length]
  have hrank : ((get_prioritized_recommendations recs mc ms).1).map (fun r => r.rank)
      = (List.range' 1 ((get_prioritized_recommendations recs mc ms).1).length).map
          some := by
    rw [hlen]
    show (((gpTruncated recs mc ms).enum.map
        (fun q => (q.2.1, rankify q.2.2 (q.1 + 1)))).map Prod.snd).map (fun r => r.rank)
      = (List.range' 1 (gpTruncated recs mc ms).length).map some
    rw [List.map_map, List.map_map]
    have h := enum_rankify_rank (gpTruncated recs mc ms) 0
    rw [List.map_map] at h
    exact h
  have hlabel : ((get_prioritized_recommendations recs mc ms).1).map
        (fun r => r.priority_label)
      = ((get_prioritized_recommendations recs mc ms).1).map
          (fun r => some r.priority.pyName) := by
    show (((gpTruncated recs mc ms).enum.map
        (fun q => (q.2.1, rankify q.2.2 (q.1 + 1)))).map Prod.snd).map
          (fun r => r.priority_label)
      = (((gpTruncated recs mc ms).enum.map
        (fun q => (q.2.1, rankify q.2.2 (q.1 + 1)))).map Prod.snd).map
          (fun r => some r.priority.pyName)
    rw [List.map_map, List.map_map, List.map_map, List.map_map]
    rfl
  have houtmem : ∀ q ∈ gpOut recs mc ms,
      ∃ j r k, q = (j, rankify r k) ∧ (j, r) ∈ recs.enum := by
    intro q hq
    unfold gpOut at hq
    rw [List.mem_map] at hq
    obtain ⟨w, hw, rfl⟩ := hq
    refine ⟨w.2.1, w.2.2, w.1 + 1, rfl, ?_⟩
    have h1 : w.2 ∈ gpTruncated recs mc ms := mem_of_mem_enumFrom hw
    have h2 : w.2 ∈ gpSorted recs ms := by
      cases mc with
      | none => exact h1
      | some m =>
        have h1b : w.2 ∈ (if m = 0 then gpSorted recs ms
            else (gpSorted recs ms).take m) := h1
        by_cases hm : m = 0
        · rw [if_pos hm] at h1b; exact h1b
        · rw [if_neg hm] at h1b; exact List.take_subset m _ h1b
    have h3 := (sSort_perm (fun p : ℕ × EngineRec => engineKey p.2) _).subset h2
    exact (List.mem_filter.mp h3).1
  have hpatchrel : ∀ p ∈ recs.enum,
      eraseRank p.2 = eraseRank
        (match (gpOut recs mc ms).find? (fun q => q.1 == p.1) with
          | some q => q.2
          | none => p.2) := by
    intro p hp
    cases hfq : (gpOut recs mc ms).find? (fun q => q.1 == p.1) with
    | none => rfl
    | some q =>
      have hqmem : q ∈ gpOut recs mc ms := List.mem_of_find?_eq_some hfq
      have hq1 : q.1 = p.1 := by
        have h := List.find?_some hfq
        simpa using h
      obtain ⟨j, r, k, hqe, hjr⟩ := houtmem q hqmem
      have hj : j = p.1 := by rw [hqe] at hq1; exact hq1
      rw [hj] at hjr
      have hrp : r = p.2 := mem_enumFrom_unique hjr hp
      rw [hqe, eraseRank_rankify, hrp]
  have henum : (gpPatch (gpOut recs mc ms) recs).enum
      = recs.enum.map (fun p => (p.1,
          match (gpOut recs mc ms).find? (fun q => q.1 == p.1) with
          | some q => q.2
          | none => p.2)) := by
    unfold gpPatch
    exact enumFrom_map_enumFrom _ recs 0
  have hrel : List.Forall₂
      (fun p q : ℕ × EngineRec => p.1 = q.1 ∧ eraseRank p.2 = eraseRank q.2)
      recs.enum ((gpPatch (gpOut recs mc ms) recs).enum) := by
    rw [henum]
    exact forall₂_map_self (fun p hp => ⟨rfl, hpatchrel p hp⟩)
  have hfil := forall₂_filter
    (p := fun p : ℕ × EngineRec => decide (ms ≤ savingsD p.2))
    (q := fun p : ℕ × EngineRec => decide (ms ≤ savingsD p.2))
    (fun a b hab => by simp only [savingsD_congr hab.2]) hrel
  have hsort₂ := sSort_forall₂ (fun p : ℕ × EngineRec => engineKey p.2)
    (fun a b hab => engineKey_congr hab.2) hfil
  have htrunc₂ : List.Forall₂
      (fun p q : ℕ × EngineRec => p.1 = q.1 ∧ eraseRank p.2 = eraseRank q.2)
      (gpTruncated recs mc ms)
      (gpTruncated (gpPatch (gpOut recs mc ms) recs) mc ms) := by
    cases mc with
    | none => exact hsort₂
    | some m =>
      show List.Forall₂ _
        (if m = 0 then gpSorted recs ms else (gpSorted recs ms).take m)
        (if m = 0 then gpSorted (gpPatch (gpOut recs (some m) ms) recs) ms
          else (gpSorted (gpPatch (gpOut recs (some m) ms) recs) ms).take m)
      by_cases hm : m = 0
      · rw [if_pos hm, if_pos hm]; exact hsort₂
      · rw [if_neg hm, if_neg hm]; exact forall₂_take hsort₂ m
  have hout₂ : gpOut (gpPatch (gpOut recs mc ms) recs) mc ms = gpOut recs mc ms := by
    unfold gpOut
    refine (map_eq_of_forall₂ ?_ (forall₂_enumFrom htrunc₂ 0)).symm
    intro a b hab
    obtain ⟨h1, h2, h3⟩ := hab
    rw [Prod.mk.injEq]
    exact ⟨h2, by rw [h1, rankify_congr h3]⟩
  have hfst₂ : (get_prioritized_recommendations
        (gpPatch (gpOut recs mc ms) recs) mc ms).1
      = (get_prioritized_recommendations recs mc ms).1 := by
    show (gpOut (gpPatch (gpOut recs mc ms) recs) mc ms).map Prod.snd = _
    rw [hout₂]
    rfl
  have hsnd₂ : (get_prioritized_recommendations
        (gpPatch (gpOut recs mc ms) recs) mc ms).2
      = (get_prioritized_recommendations recs mc ms).2 := by
    show gpPatch (gpOut (gpPatch (gpOut recs mc ms) recs) mc ms)
        (gpPatch (gpOut recs mc ms) recs) = gpPatch (gpOut recs mc ms) recs
    rw [hout₂]
    show (gpPatch (gpOut recs mc ms) recs).enum.map (fun p =>
        match (gpOut recs mc ms).find? (fun q => q.1 == p.1) with
        | some q => q.2
        | none => p.2) = gpPatch (gpOut recs mc ms) recs
    rw [henum, List.map_map]
    apply List.map_congr_left
    intro p hp
    simp only [Function.comp]
    cases hfq : (gpOut recs mc ms).find? (fun q => q.1 == p.1) with
    | none => rfl
    | some q => rfl
  refine ⟨hperm, hpair, ?_, ?_, hrank, hlabel, ?_⟩
  · intro h
    subst h
    exact herase none
  · intro m hm h0
    subst hm
    have h := herase (some m)
    have htr : gpTruncated recs (some m) ms = (gpSorted recs ms).take m := by
      show (if m = 0 then gpSorted recs ms else (gpSorted recs ms).take m) = _
      rw [if_neg (Nat.pos_iff_ne_zero.mp h0)]
    rw [htr] at h
    rw [h, List.map_take]
  · exact Prod.ext hfst₂ hsnd₂

/-- A concrete engine state used to witness C3: one idle-instance
recommendation ($150, HIGH) and one unused-resource recommendation
($30, MEDIUM). -/
def c3WitnessRecs : List EngineRec :=
  [ ⟨"idle_instance", some "vm-1", some 150, none, .HIGH, "high", "low", none, none⟩,
    ⟨"unused_resource", some "disk-1", some 30, none, .MEDIUM, "high", "medium",
      none, none⟩ ]

/-- Witness for C3 at a concrete engine state, maxCount = 1,
minSavings = 0: the truncation hypothesis (0 < 1) is discharged and the
truncated output is exactly the first sorted survivor. -/
theorem c3_prioritized_ranking_witness :
    (0 : ℕ) < 1 ∧
    ((get_prioritized_recommendations c3WitnessRecs (some 1) 0).1).map eraseRank
      = (((gpSorted c3WitnessRecs 0).map Prod.snd).take 1).map eraseRank :=
  ⟨by decide,
    (c3_prioritized_ranking c3WitnessRecs (some 1) 0).2.2.2.1 1 rfl (by decide)⟩

/-- C4: the producer operations assign priorities by the documented
rules — idle instances: HIGH iff estimated savings > $100 else MEDIUM;
rightsizing: CRITICAL iff savings > $500 with high/medium confidence,
else HIGH (> $100), MEDIUM (> $20), LOW; unused resources: MEDIUM iff
estimated savings > $50 else LOW; cost anomalies: CRITICAL iff severity
is "high" else HIGH. -/
theorem c4_priority_rules :
    (∀ l : List IdleInstance,
      (add_idle_instance_recommendations l).map (fun r => r.priority)
        = (add_idle_instance_recommendations l).map (fun r =>
            if 100 < savingsD r then RecommendationPriority.HIGH
            else RecommendationPriority.MEDIUM)) ∧
    (∀ l : List RightsizingEngineInput,
      (add_rightsizing_recommendations l).map (fun r => r.priority)
        = (add_rightsizing_recommendations l).map (fun r =>
            if 500 < savingsD r ∧ (r.confidence = "high" ∨ r.confidence = "medium")
              then RecommendationPriority.CRITICAL
            else if 100 < savingsD r then RecommendationPriority.HIGH
            else if 20 < savingsD r then RecommendationPriority.MEDIUM
            else RecommendationPriority.LOW)) ∧
    (∀ l : List ResourceRecord,
      (add_unused_resource_recommendations l).map (fun r => r.priority)
        = (add_unused_resource_recommendations l).map (fun r =>
            if 50 < savingsD r then RecommendationPriority.MEDIUM
            else RecommendationPriority.LOW)) ∧
    (∀ l : List Anomaly,
      (add_cost_anomaly_recommendations l).map (fun r => r.priority)
        = l.map (fun a =>
            if a.severity = "high" then RecommendationPriority.CRITICAL
            else RecommendationPriority.HIGH)) := by
  refine ⟨?_, ?_, ?_, ?_⟩
  · intro l
    simp only [add_idle_instance_recommendations, List.map_map]
    rfl
  · intro l
    simp only [add_rightsizing_recommendations, List.map_map]
    rfl
  · intro l
    simp only [add_unused_resource_recommendations, List.map_map]
    rfl
  · intro l
    simp only [add_cost_anomaly_recommendations, List.map_map]
    rfl

/-- C6 counterexample: the returned `percentage_change` is rounded to two
decimals, so with current total 1 and previous total 3 it is −66.67, not
the exact (1−3)/3×100 = −200/3 the claim states. -/
theorem c6_rounding_counterexample :
    (compare_periods [⟨fun _ => none, some 1, none, none⟩]
        [⟨fun _ => none, some 3, none, none⟩]).percentage_change
      ≠ ((1 : ℚ) - 3) / 3 * 100 ∧
    (compare_periods [⟨fun _ => none, some 1, none, none⟩]
        [⟨fun _ => none, some 3, none, none⟩]).percentage_change
      = -6667/100 := by
  constructor
  · decide
  · decide

/-- C6 (amended): `percentage_change` is the claim's formula rounded to
two decimals (exact 100.0 / 0.0 for a zero previous total), the trend is
"increasing" exactly when the current total strictly exceeds the previous
total, and equal totals yield percentage_change 0 and trend
"decreasing". -/
theorem c6_compare_periods (current_data previous_data : List BillingRecord) :
    (compare_periods current_data previous_data).percentage_change
      = round2 (if (previous_data.map costOf).sum = 0 then
            (if 0 < (current_data.map costOf).sum then (100 : ℚ) else 0)
          else ((current_data.map costOf).sum - (previous_data.map costOf).sum)
            / (previous_data.map costOf).sum * 100) ∧
    (compare_periods current_data previous_data).trend
      = (if (previous_data.map costOf).sum < (current_data.map costOf).sum
          then "increasing" else "decreasing") ∧
    ((current_data.map costOf).sum = (previous_data.map costOf).sum →
      (compare_periods current_data previous_data).percentage_change = 0 ∧
      (compare_periods current_data previous_data).trend = "decreasing") := by
  refine ⟨rfl, rfl, ?_⟩
  intro heq
  constructor
  · show round2 (if (previous_data.map costOf).sum = 0 then
        (if 0 < (current_data.map costOf).sum then (100 : ℚ) else 0)
      else ((current_data.map costOf).sum - (previous_data.map costOf).sum)
        / (previous_data.map costOf).sum * 100) = 0
    by_cases h0 : (previous_data.map costOf).sum = 0
    · rw [if_pos h0]
      rw [heq, h0]
      simp [round2_zero]
    · rw [if_neg h0, heq]
      rw [sub_self, zero_div, zero_mul, round2_zero]
  · show (if (previous_data.map costOf).sum < (current_data.map costOf).sum
        then "increasing" else "decreasing") = "decreasing"
    rw [heq, if_neg (lt_irrefl _)]

/-- Witness for C6 at `comparePeriods([], [])`: equal (empty) totals give
percentage_change 0 and trend "decreasing". -/
theorem c6_compare_periods_witness :
    (([] : List BillingRecord).map costOf).sum
      = (([] : List BillingRecord).map costOf).sum ∧
    (compare_periods [] []).percentage_change = 0 ∧
    (compare_periods [] []).trend = "decreasing" :=
  ⟨rfl, (c6_compare_periods [] []).2.2 rfl⟩

/-- C9 counterexample: with one resource and two "idle" resources the
returned utilization_rate is −100, outside [0,100]; the claim's
unconditional range invariant fails. -/
theorem c9_range_counterexample :
    (calculate_resource_efficiency [⟨none, none, none⟩]
        [⟨none, none, none⟩, ⟨none, none, none⟩]).utilization_rate = -100 ∧
    ¬ (0 ≤ (calculate_resource_efficiency [⟨none, none, none⟩]
        [⟨none, none, none⟩, ⟨none, none, none⟩]).utilization_rate) := by
  constructor
  · decide
  · decide

/-- C9 (amended): `utilization_rate` is (total−idle)/total×100 (0 when
total is 0) rounded to two decimals, the grade is assigned from the
unrounded rate by the thresholds ≥90→A, ≥80→B, ≥70→C, ≥60→D, else F,
and the returned rate lies in [0,100] whenever the idle list is no longer
than the resource list. -/
theorem c9_resource_efficiency (resources idle_resources : List ResourceRecord) :
    (calculate_resource_efficiency resources idle_resources).utilization_rate
      = round2 (if (resources.length : ℤ) = 0 then 0
          else (((resources.length : ℤ) - (idle_resources.length : ℤ) : ℤ) : ℚ)
            / (resources.length : ℚ) * 100) ∧
    (calculate_resource_efficiency resources idle_resources).efficiency_grade
      = (let rate := if (resources.length : ℤ) = 0 then (0 : ℚ)
            else (((resources.length : ℤ) - (idle_resources.length : ℤ) : ℤ) : ℚ)
              / (resources.length : ℚ) * 100
         if 90 ≤ rate then "A" else if 80 ≤ rate then "B"
         else if 70 ≤ rate then "C" else if 60 ≤ rate then "D" else "F") ∧
    (idle_resources.length ≤ resources.length →
      0 ≤ (calculate_resource_efficiency resources idle_resources).utilization_rate ∧
      (calculate_resource_efficiency resources idle_resources).utilization_rate
        ≤ 100) := by
  refine ⟨rfl, rfl, ?_⟩
  intro hle
  have hrate : ∃ x : ℚ, 0 ≤ x ∧ x ≤ 100 ∧
      (calculate_resource_efficiency resources idle_resources).utilization_rate
        = round2 x := by
    by_cases h0 : (resources.length : ℤ) = 0
    · refine ⟨0, le_refl 0, by norm_num, ?_⟩
      show round2 (if (resources.length : ℤ) = 0 then 0 else _) = round2 0
      rw [if_pos h0]
    · have hpos : 0 < (resources.length : ℚ) := by
        have : resources.length ≠ 0 := by
          intro h
          exact h0 (by exact_mod_cast h)
        have : 0 < resources.length := Nat.pos_of_ne_zero this
        exact_mod_cast this
      refine ⟨(((resources.length : ℤ) - (idle_resources.length : ℤ) : ℤ) : ℚ)
          / (resources.length : ℚ) * 100, ?_, ?_, ?_⟩
      · apply mul_nonneg
        · apply div_nonneg
          · have hzi : (0 : ℤ) ≤ (resources.length : ℤ) - (idle_resources.length : ℤ) := by
              omega
            exact_mod_cast hzi
          · linarith
        · norm_num
      · have hnum : (((resources.length : ℤ) - (idle_resources.length : ℤ) : ℤ) : ℚ)
            ≤ (resources.length : ℚ) := by
          push_cast
          have : (0 : ℚ) ≤ (idle_resources.length : ℚ) := by positivity
          linarith
        have hdiv : (((resources.length : ℤ) - (idle_resources.length : ℤ) : ℤ) : ℚ)
            / (resources.length : ℚ) ≤ 1 := by
          rw [div_le_one hpos]
          exact hnum
        nlinarith
      · show round2 (if (resources.length : ℤ) = 0 then 0 else _) = _
        rw [if_neg h0]
        rfl
  obtain ⟨x, hx0, hx100, hxeq⟩ := hrate
  rw [hxeq]
  exact ⟨round2_nonneg hx0, round2_le_hundred hx100⟩

/-- Witness for C9 at the spec's example (total = 10, idle = 1): the
rate is in range; separately the rate evaluates to 90 with grade "A". -/
theorem c9_resource_efficiency_witness :
    ([⟨none, none, none⟩] : List ResourceRecord).length
        ≤ (List.replicate 10 (⟨none, none, none⟩ : ResourceRecord)).length ∧
    (0 ≤ (calculate_resource_efficiency
        (List.replicate 10 (⟨none, none, none⟩ : ResourceRecord))
        [⟨none, none, none⟩]).utilization_rate ∧
      (calculate_resource_efficiency
        (List.replicate 10 (⟨none, none, none⟩ : ResourceRecord))
        [⟨none, none, none⟩]).utilization_rate ≤ 100) ∧
    (calculate_resource_efficiency
        (List.replicate 10 (⟨none, none, none⟩ : ResourceRecord))
        [⟨none, none, none⟩]).utilization_rate = 90 ∧
    (calculate_resource_efficiency
        (List.replicate 10 (⟨none, none, none⟩ : ResourceRecord))
        [⟨none, none, none⟩]).efficiency_grade = "A" :=
  ⟨by decide,
    (c9_resource_efficiency _ _).2.2 (by decide),
    by decide, by decide⟩


/-- An upsert result is never empty. -/
theorem upsert_ne_nil (acc : List (String × ℚ)) (k : String) (c : ℚ) :
    upsert acc k c ≠ [] := by
  cases acc with
  | nil => simp [upsert]
  | cons h t =>
    rcases h with ⟨k2, v⟩
    by_cases hk : k2 = k
    · simp [upsert, hk]
    · simp [upsert, hk]

/-- Grouping a nonempty list yields a nonempty list. -/
theorem groupSum_ne_nil {l : List (String × ℚ)} (h : l ≠ []) : groupSum l ≠ [] := by
  have main : ∀ (l acc : List (String × ℚ)), acc ≠ [] →
      l.foldl (fun acc p => upsert acc p.1 p.2) acc ≠ [] := by
    intro l
    induction l with
    | nil => intro acc ha; simpa using ha
    | cons p t ih =>
      intro acc ha
      exact ih _ (upsert_ne_nil acc p.1 p.2)
  cases l with
  | nil => exact absurd rfl h
  | cons p t =>
    show (p :: t).foldl (fun acc p => upsert acc p.1 p.2) [] ≠ []
    rw [List.foldl_cons]
    exact main t _ (upsert_ne_nil [] p.1 p.2)

/-- Distributing a division-and-scale over a list sum. -/
theorem sum_map_div_mul (l : List (String × ℚ)) (T : ℚ) :
    (l.map (fun p => p.2 / T * 100)).sum = (l.map Prod.snd).sum / T * 100 := by
  induction l with
  | nil => simp
  | cons p t ih =>
    simp only [List.map_cons, List.sum_cons]
    rw [ih]
    ring

/-- A billing record with only a service name and a cost. -/
def c7Record (nm : String) (c : ℚ) : BillingRecord :=
  ⟨fun k => if k = "service_name" then some nm else none, some c, none, none⟩

/-- 31 services: 30 of cost 1006 (percentage 1.006, rounded up to 1.01)
and one of cost 69820 (percentage 69.82, exact); total 100000. -/
def c7CounterRecords : List BillingRecord :=
  [ c7Record "s01" 1006, c7Record "s02" 1006, c7Record "s03" 1006, c7Record "s04" 1006, c7Record "s05" 1006, c7Record "s06" 1006, c7Record "s07" 1006, c7Record "s08" 1006, c7Record "s09" 1006, c7Record "s10" 1006, c7Record "s11" 1006, c7Record "s12" 1006, c7Record "s13" 1006, c7Record "s14" 1006, c7Record "s15" 1006, c7Record "s16" 1006, c7Record "s17" 1006, c7Record "s18" 1006, c7Record "s19" 1006, c7Record "s20" 1006, c7Record "s21" 1006, c7Record "s22" 1006, c7Record "s23" 1006, c7Record "s24" 1006, c7Record "s25" 1006, c7Record "s26" 1006, c7Record "s27" 1006, c7Record "s28" 1006, c7Record "s29" 1006, c7Record "s30" 1006,
    c7Record "big" 69820 ]

/-- A list of non-negative rationals summing to zero is all zeros. -/
theorem list_sum_zero_nonneg : ∀ (l : List ℚ), (∀ x ∈ l, 0 ≤ x) → l.sum = 0 →
    ∀ x ∈ l, x = 0 := by
  intro l
  induction l with
  | nil => intro _ _ x hx; simp at hx
  | cons a t ih =>
    intro hnn hsum x hx
    have ha : 0 ≤ a := hnn a (List.mem_cons_self a t)
    have ht : 0 ≤ t.sum := List.sum_nonneg (fun y hy => hnn y (List.mem_cons_of_mem a hy))
    rw [List.sum_cons] at hsum
    have ha0 : a = 0 := by linarith
    have hts : t.sum = 0 := by linarith
    rcases List.mem_cons.mp hx with rfl | hx
    · exact ha0
    · exact ih (fun y hy => hnn y (List.mem_cons_of_mem a hy)) hts x hx

/-- The spec's example input for anomaly detection: costs 100, 100, 100,
500 on four distinct dates. -/
def c5ExampleRecords : List BillingRecord :=
  [ ⟨fun _ => none, some 100, some "2024-01-01", none⟩,
    ⟨fun _ => none, some 100, some "2024-01-02", none⟩,
    ⟨fun _ => none, some 100, some "2024-01-03", none⟩,
    ⟨fun _ => none, some 500, some "2024-01-04", none⟩ ]

/-- C5 counterexample: on costs [100,100,100,500] over four distinct
dates with threshold 20, the code flags four anomalies (each 100-day
deviates by −50%, which exceeds 20), not exactly one as claimed. -/
theorem c5_example_counterexample :
    (identify_anomalies c5ExampleRecords 20).length = 4 ∧
    ¬ ((identify_anomalies c5ExampleRecords 20).length = 1) := by
  constructor
  · decide
  · decide

/-- C5 (amended): with non-negative costs, identifyAnomalies returns []
whenever fewer than 2 distinct dates are bucketed; otherwise it reports,
in bucket order, exactly the dates whose |((cost − m)/m)×100| exceeds the
threshold, with severity "high" iff that absolute deviation exceeds 50
(else "medium"); the buckets have pairwise distinct dates.  On the
example [100,100,100,500] over 4 dates with threshold 20 it yields four
anomalies: the three 100-days at deviation −50 ("medium") and the
500-day at deviation 150 ("high"). -/
theorem c5_identify_anomalies (billing_data : List BillingRecord) (θ : ℚ)
    (hnn : ∀ r ∈ billing_data, 0 ≤ costOf r) :
    ((dailyCosts billing_data).length < 2 → identify_anomalies billing_data θ = []) ∧
    ((dailyCosts billing_data).map Prod.fst).Nodup ∧
    (2 ≤ (dailyCosts billing_data).length →
      identify_anomalies billing_data θ
        = (dailyCosts billing_data).filterMap (fun p =>
            let m := ((dailyCosts billing_data).map Prod.snd).sum
                      / ((dailyCosts billing_data).length : ℚ)
            let dev := (p.2 - m) / m * 100
            if θ < |dev| then
              some ⟨p.1, round2 p.2, round2 m, round2 dev,
                if 50 < |dev| then "high" else "medium"⟩
            else none)) ∧
    identify_anomalies c5ExampleRecords 20
      = [ ⟨"2024-01-01", 100, 200, -50, "medium"⟩,
          ⟨"2024-01-02", 100, 200, -50, "medium"⟩,
          ⟨"2024-01-03", 100, 200, -50, "medium"⟩,
          ⟨"2024-01-04", 500, 200, 150, "high"⟩ ] := by
  have hpairs : ∀ p ∈ billing_data.filterMap (fun r =>
      if dateKey r = "Unknown" then none
      else some (datePart (dateKey r), costOf r)), 0 ≤ p.2 := by
    intro p hp
    rw [List.mem_filterMap] at hp
    obtain ⟨r, hr, hfr⟩ := hp
    by_cases hd : dateKey r = "Unknown"
    · rw [if_pos hd] at hfr
      exact Option.noConfusion hfr
    · rw [if_neg hd] at hfr
      injection hfr with hfr2
      rw [← hfr2]
      exact hnn r hr
  have hbuckets : ∀ p ∈ dailyCosts billing_data, 0 ≤ p.2 :=
    groupSum_nonneg hpairs
  refine ⟨?_, groupSum_keys_nodup _, ?_, by decide⟩
  · intro h
    simp only [identify_anomalies]
    rw [if_pos h]
  · intro h2
    simp only [identify_anomalies]
    rw [if_neg (not_lt.mpr h2)]
    apply List.filterMap_congr
    intro p hp
    have hm0 : 0 ≤ ((dailyCosts billing_data).map Prod.snd).sum
        / ((dailyCosts billing_data).length : ℚ) := by
      apply div_nonneg
      · apply List.sum_nonneg
        intro x hx
        rw [List.mem_map] at hx
        obtain ⟨q, hq, rfl⟩ := hx
        exact hbuckets q hq
      · positivity
    by_cases hmp : 0 < ((dailyCosts billing_data).map Prod.snd).sum
        / ((dailyCosts billing_data).length : ℚ)
    · simp only [if_pos hmp]
    · have hmz : ((dailyCosts billing_data).map Prod.snd).sum
          / ((dailyCosts billing_data).length : ℚ) = 0 := le_antisymm (not_lt.mp hmp) hm0
      have hsz : ((dailyCosts billing_data).map Prod.snd).sum = 0 := by
        have hlen : ((dailyCosts billing_data).length : ℚ) ≠ 0 := by
          have : 0 < (dailyCosts billing_data).length := by omega
          positivity
        exact (div_eq_zero_iff.mp hmz).resolve_right hlen
      have hz : p.2 = 0 := by
        apply list_sum_zero_nonneg ((dailyCosts billing_data).map Prod.snd)
        · intro x hx
          rw [List.mem_map] at hx
          obtain ⟨q, hq, rfl⟩ := hx
          exact hbuckets q hq
        · exact hsz
        · exact List.mem_map.mpr ⟨p, hp, rfl⟩
      simp only [if_neg hmp, hmz, hz]
      norm_num

/-- Witness for C5 at the example records (non-negative costs are
discharged; the four-anomaly output is evaluated). -/
theorem c5_identify_anomalies_witness :
    (∀ r ∈ c5ExampleRecords, 0 ≤ costOf r) ∧
    identify_anomalies c5ExampleRecords 20
      = [ ⟨"2024-01-01", 100, 200, -50, "medium"⟩,
          ⟨"2024-01-02", 100, 200, -50, "medium"⟩,
          ⟨"2024-01-03", 100, 200, -50, "medium"⟩,
          ⟨"2024-01-04", 500, 200, 150, "high"⟩ ] :=
  ⟨by decide, (c5_identify_anomalies c5ExampleRecords 20 (by decide)).2.2.2⟩

set_option maxRecDepth 8000 in
/-- C7 counterexample: with 31 groups (30 of percentage 1.006, each
rounding up to 1.01, and one of 69.82) the rounded percentages sum to
100.12, deviating from 100 by 0.12 > 0.1. -/
theorem c7_percentage_sum_counterexample :
    ((analyze_cost_trends c7CounterRecords "service").breakdown.map
        (fun b => b.percentage)).sum = 10012/100 ∧
    ¬ (|((analyze_cost_trends c7CounterRecords "service").breakdown.map
        (fun b => b.percentage)).sum - 100| ≤ 1/10) := by
  constructor
  · decide
  · decide

/-- C7 (amended): analyzeCostTrends returns status "no_data" for an empty
list; for a non-empty list it returns "success" with records grouped by
the chosen dimension's name field (missing names defaulting to
"Unknown"), a breakdown sorted by summed cost descending whose entry
names are exactly the group keys, top_cost_driver equal to the first
breakdown entry's name, and, whenever total_cost > 0, the breakdown
percentages summing to 100 within ±0.005 per breakdown entry (hence
within ±0.1 whenever there are at most 20 entries). -/
theorem c7_cost_trends (billing_data : List BillingRecord) (group_by : String) :
    (billing_data = [] →
      (analyze_cost_trends billing_data group_by).status = "no_data") ∧
    (billing_data ≠ [] →
      (analyze_cost_trends billing_data group_by).status = "success" ∧
      ((analyze_cost_trends billing_data group_by).breakdown.map
          (fun b => b.name)).Perm
        ((groupSum (trendPairs billing_data group_by)).map Prod.fst) ∧
      (analyze_cost_trends billing_data group_by).breakdown.Pairwise
        (fun a b => b.cost ≤ a.cost) ∧
      (analyze_cost_trends billing_data group_by).breakdown ≠ [] ∧
      (analyze_cost_trends billing_data group_by).top_cost_driver
        = ((analyze_cost_trends billing_data group_by).breakdown.head?.map
            (fun b => b.name)) ∧
      (0 < ((trendPairs billing_data group_by).map Prod.snd).sum →
        |((analyze_cost_trends billing_data group_by).breakdown.map
            (fun b => b.percentage)).sum - 100|
          ≤ ((analyze_cost_trends billing_data group_by).breakdown.length : ℚ)
              / 200 ∧
        ((analyze_cost_trends billing_data group_by).breakdown.length ≤ 20 →
          |((analyze_cost_trends billing_data group_by).breakdown.map
              (fun b => b.percentage)).sum - 100| ≤ 1/10))) := by
  constructor
  · intro h
    subst h
    rfl
  · intro hne
    cases billing_data with
    | nil => exact absurd rfl hne
    | cons r0 rest =>
      have hbd : (analyze_cost_trends (r0 :: rest) group_by).breakdown
          = (sSort (fun p : String × ℚ => -p.2)
              (groupSum (trendPairs (r0 :: rest) group_by))).map
              (mkBreakdown (((trendPairs (r0 :: rest) group_by).map Prod.snd).sum))
          := rfl
      have hgne : groupSum (trendPairs (r0 :: rest) group_by) ≠ [] := by
        apply groupSum_ne_nil
        simp [trendPairs]
      have hsne : sSort (fun p : String × ℚ => -p.2)
          (groupSum (trendPairs (r0 :: rest) group_by)) ≠ [] := by
        intro h
        have h2 := sSort_perm (fun p : String × ℚ => -p.2)
          (groupSum (trendPairs (r0 :: rest) group_by))
        rw [h] at h2
        exact hgne (List.Perm.eq_nil h2.symm)
      refine ⟨rfl, ?_, ?_, ?_, rfl, ?_⟩
      · rw [hbd, List.map_map]
        exact (sSort_perm (fun p : String × ℚ => -p.2)
          (groupSum (trendPairs (r0 :: rest) group_by))).map Prod.fst
      · rw [hbd, List.pairwise_map]
        have hs := sSort_sorted (fun p : String × ℚ => -p.2)
          (groupSum (trendPairs (r0 :: rest) group_by))
        refine hs.imp ?_
        intro a b hab
        have hba : b.2 ≤ a.2 := by
          have := hab
          simp only [neg_le_neg_iff] at this
          exact this
        exact round2_mono hba
      · rw [hbd]
        intro h
        rw [List.map_eq_nil_iff] at h
        exact hsne h
      · intro hT
        have e1 : ((analyze_cost_trends (r0 :: rest) group_by).breakdown.map
              (fun b => b.percentage)).sum
            = ((sSort (fun p : String × ℚ => -p.2)
                (groupSum (trendPairs (r0 :: rest) group_by))).map
                (fun p => round2
                  (if 0 < ((trendPairs (r0 :: rest) group_by).map Prod.snd).sum
                    then p.2 / ((trendPairs (r0 :: rest) group_by).map Prod.snd).sum
                      * 100
                    else 0))).sum := by
          rw [hbd, List.map_map]
          rfl
        have e2 : ((sSort (fun p : String × ℚ => -p.2)
              (groupSum (trendPairs (r0 :: rest) group_by))).map
              (fun p => round2
                (if 0 < ((trendPairs (r0 :: rest) group_by).map Prod.snd).sum
                  then p.2 / ((trendPairs (r0 :: rest) group_by).map Prod.snd).sum
                    * 100
                  else 0)))
            = ((sSort (fun p : String × ℚ => -p.2)
                (groupSum (trendPairs (r0 :: rest) group_by))).map
                (fun p => round2
                  (p.2 / ((trendPairs (r0 :: rest) group_by).map Prod.snd).sum
                    * 100))) :=
          List.map_congr_left (fun p _ => by rw [if_pos hT])
        have e3 : ((sSort (fun p : String × ℚ => -p.2)
              (groupSum (trendPairs (r0 :: rest) group_by))).map
              (fun p => round2
                (p.2 / ((trendPairs (r0 :: rest) group_by).map Prod.snd).sum
                  * 100))).sum
            = ((groupSum (trendPairs (r0 :: rest) group_by)).map
                (fun p => round2
                  (p.2 / ((trendPairs (r0 :: rest) group_by).map Prod.snd).sum
                    * 100))).sum :=
          ((sSort_perm (fun p : String × ℚ => -p.2)
            (groupSum (trendPairs (r0 :: rest) group_by))).map _).sum_eq
        have e4 := sum_map_round2_close
          ((groupSum (trendPairs (r0 :: rest) group_by)).map
            (fun p => p.2 / ((trendPairs (r0 :: rest) group_by).map Prod.snd).sum
              * 100))
        rw [List.map_map, List.length_map] at e4
        have hSsum : ((groupSum (trendPairs (r0 :: rest) group_by)).map
              (fun p => p.2 / ((trendPairs (r0 :: rest) group_by).map Prod.snd).sum
                * 100)).sum = 100 := by
          rw [sum_map_div_mul, groupSum_snd_sum,
            div_self (ne_of_gt hT), one_mul]
        have hlenb : ((analyze_cost_trends (r0 :: rest) group_by).breakdown.length : ℚ)
            = ((groupSum (trendPairs (r0 :: rest) group_by)).length : ℚ) := by
          rw [hbd, List.length_map,
            (sSort_perm (fun p : String × ℚ => -p.2)
              (groupSum (trendPairs (r0 :: rest) group_by))).length_eq]
        have hcomp : ((analyze_cost_trends (r0 :: rest) group_by).breakdown.map
              (fun b => b.percentage)).sum
            = ((groupSum (trendPairs (r0 :: rest) group_by)).map
                (fun p => round2
                  (p.2 / ((trendPairs (r0 :: rest) group_by).map Prod.snd).sum
                    * 100))).sum := by
          rw [e1, e2, e3]
        have hmain : |((analyze_cost_trends (r0 :: rest) group_by).breakdown.map
              (fun b => b.percentage)).sum - 100|
            ≤ ((analyze_cost_trends (r0 :: rest) group_by).breakdown.length : ℚ)
                / 200 := by
          rw [hcomp, hlenb]
          have e5 : ((groupSum (trendPairs (r0 :: rest) group_by)).map
                (fun p => round2
                  (p.2 / ((trendPairs (r0 :: rest) group_by).map Prod.snd).sum
                    * 100))).sum
              = ((groupSum (trendPairs (r0 :: rest) group_by)).map
                  (round2 ∘ fun p =>
                    p.2 / ((trendPairs (r0 :: rest) group_by).map Prod.snd).sum
                      * 100)).sum := rfl
          rw [e5]
          calc |((groupSum (trendPairs (r0 :: rest) group_by)).map
                  (round2 ∘ fun p =>
                    p.2 / ((trendPairs (r0 :: rest) group_by).map Prod.snd).sum
                      * 100)).sum - 100|
              = |((groupSum (trendPairs (r0 :: rest) group_by)).map
                    (round2 ∘ fun p =>
                      p.2 / ((trendPairs (r0 :: rest) group_by).map Prod.snd).sum
                        * 100)).sum
                  - ((groupSum (trendPairs (r0 :: rest) group_by)).map
                      (fun p => p.2
                        / ((trendPairs (r0 :: rest) group_by).map Prod.snd).sum
                        * 100)).sum| := by rw [hSsum]
            _ ≤ ((groupSum (trendPairs (r0 :: rest) group_by)).length : ℚ) * (1/200) :=
                e4
            _ = ((groupSum (trendPairs (r0 :: rest) group_by)).length : ℚ) / 200 := by
                ring
        refine ⟨hmain, ?_⟩
        intro hn20
        have hcast : ((analyze_cost_trends (r0 :: rest) group_by).breakdown.length : ℚ)
            ≤ 20 := by
          exact_mod_cast hn20
        have : ((analyze_cost_trends (r0 :: rest) group_by).breakdown.length : ℚ) / 200
            ≤ 1/10 := by linarith
        linarith

set_option maxRecDepth 2000 in
/-- Witness for c7_cost_trends at a concrete two-record input
(two services with costs 60 and 40). -/
theorem c7_cost_trends_witness :
    [c7Record "a" 60, c7Record "b" 40] ≠ ([] : List BillingRecord) ∧
    0 < ((trendPairs [c7Record "a" 60, c7Record "b" 40] "service").map
          Prod.snd).sum ∧
    (analyze_cost_trends [c7Record "a" 60, c7Record "b" 40] "service").breakdown.length
      ≤ 20 ∧
    |((analyze_cost_trends [c7Record "a" 60, c7Record "b" 40] "service").breakdown.map
        (fun b => b.percentage)).sum - 100| ≤ 1/10 := by
  refine ⟨List.cons_ne_nil _ _, by decide, by decide, ?_⟩
  exact (((c7_cost_trends [c7Record "a" 60, c7Record "b" 40] "service").2
    (List.cons_ne_nil _ _)).2.2.2.2.2 (by decide)).2 (by decide)

/-- C10: passing maxCount = 0 behaves exactly like passing no limit
(Python truthiness of `if max_recommendations:`): no truncation happens
and the full filtered, sorted list is returned. -/
theorem c10_maxcount_zero (recs : List EngineRec) (ms : ℚ) :
    get_prioritized_recommendations recs (some 0) ms
      = get_prioritized_recommendations recs none ms ∧
    ((get_prioritized_recommendations recs (some 0) ms).1).length
      = (gpSorted recs ms).length := by
  refine ⟨rfl, ?_⟩
  show ((gpOut recs (some 0) ms).map Prod.snd).length = _
  rw [List.length_map]
  show ((gpTruncated recs (some 0) ms).enum.map
    (fun q => (q.2.1, rankify q.2.2 (q.1 + 1)))).length = _
  rw [List.length_map, List.enum_length]
  rfl

/-! ### Simulated utilization metrics (`RightsizingAnalyzer.simulate_utilization_metrics`)

`simulate_utilization_metrics` runs `random.seed(hash(instance_name) % 10000)`
and then `random.choice(['underutilized', 'optimal', 'constrained', 'variable'])`.
CPython's `random` module is a Mersenne Twister (MT19937); the definitions
below embed, over ℕ with explicit `% 2^32` wrapping, exactly the pieces of
CPython's `_randommodule.c` that this call exercises:

* `init_genrand` / `init_by_array` — the seeding of the 624-word state from
  an integer key (for a seed `s < 2^32` the key is the single word `[s]`);
* the first few 32-bit outputs of `genrand_uint32` — since the generator
  regenerates its state lazily, output `idx < 227` depends only on initial
  state words `idx`, `idx+1` and `idx+397`, which `genrandAt` computes
  directly, followed by the four tempering steps;
* `random.choice` on a 4-element list, which draws `getrandbits(3)`
  (the top 3 bits of one 32-bit output) and retries while the draw is ≥ 4.

The 624-word state is packed into a single natural number, word `i`
occupying bits `[32*i, 32*i+32)`; `forceNat` is an identity used to keep
the packed state in evaluated form during kernel reduction.

Crucially, `hash` on strings is CPython's SipHash, which is salted with the
per-process `PYTHONHASHSEED`: the value of `hash(instance_name) % 10000` is
NOT stable across runs of the program.  The embedding therefore takes that
value as the input. -/

/-- Truncation to a 32-bit word. -/
def u32 (n : ℕ) : ℕ := n % 4294967296

/-- Identity on ℕ in continuation form; matching on the number forces it to
a literal during kernel reduction. -/
def forceNat {α : Type} (n : ℕ) (k : ℕ → α) : α :=
  match n with
  | 0 => k 0
  | m+1 => k (m+1)

/-- Word `i` of the packed 624-word MT19937 state. -/
def mtGet (mt i : ℕ) : ℕ := (mt >>> (32*i)) % 4294967296

/-- Replace word `i` of the packed MT19937 state by `v`. -/
def mtSet (mt i v : ℕ) : ℕ := mt - ((mtGet mt i) <<< (32*i)) + (v <<< (32*i))

/-- The loop of `init_genrand`:
`mt[i] = (1812433253 * (mt[i-1] ^ (mt[i-1] >> 30)) + i) mod 2^32`. -/
def initLoop : ℕ → ℕ → ℕ → ℕ → ℕ
  | 0, _, _, mt => mt
  | fuel+1, i, prev, mt =>
    let v := u32 (1812433253 * (Nat.xor prev (prev >>> 30)) + i)
    forceNat (mt + (v <<< (32*i))) (fun m => initLoop fuel (i+1) v m)

/-- CPython `init_genrand`: fill the 624-word state from a 32-bit seed. -/
def init_genrand (s : ℕ) : ℕ :=
  initLoop 623 1 (u32 s) (u32 s)

/-- First loop of `init_by_array` (key mixing):
`mt[i] = (mt[i] ^ ((mt[i-1] ^ (mt[i-1] >> 30)) * 1664525)) + key[j] + j`,
with `i` wrapping via `mt[0] = mt[623]; i = 1` and `j` cycling through the
key.  Returns the state together with the final `i`. -/
def ibaLoop1 (key : List ℕ) : ℕ → ℕ → ℕ → ℕ → ℕ × ℕ
  | 0, mt, i, _ => (mt, i)
  | k+1, mt, i, j =>
    let prev := mtGet mt (i-1)
    let v := u32 (Nat.xor (mtGet mt i)
        (u32 ((Nat.xor prev (prev >>> 30)) * 1664525)) + key.getD j 0 + j)
    let mt1 := mtSet mt i v
    let i1 := i + 1
    let mt2 := if i1 ≥ 624 then mtSet mt1 0 (mtGet mt1 623) else mt1
    let i2 := if i1 ≥ 624 then 1 else i1
    let j1 := if j + 1 ≥ key.length then 0 else j + 1
    forceNat mt2 (fun m => ibaLoop1 key k m i2 j1)

/-- Second loop of `init_by_array`:
`mt[i] = (mt[i] ^ ((mt[i-1] ^ (mt[i-1] >> 30)) * 1566083941)) - i`
(subtraction mod 2^32), with the same wrap of `i`. -/
def ibaLoop2 : ℕ → ℕ → ℕ → ℕ
  | 0, mt, _ => mt
  | k+1, mt, i =>
    let prev := mtGet mt (i-1)
    let v := u32 (Nat.xor (mtGet mt i)
        (u32 ((Nat.xor prev (prev >>> 30)) * 1566083941)) + (4294967296 - i))
    let mt1 := mtSet mt i v
    let i1 := i + 1
    let mt2 := if i1 ≥ 624 then mtSet mt1 0 (mtGet mt1 623) else mt1
    let i2 := if i1 ≥ 624 then 1 else i1
    forceNat mt2 (fun m => ibaLoop2 k m i2)

/-- CPython `init_by_array`: what `random.seed(n)` runs for an integer seed
whose 32-bit words are `key`.  Starts from `init_genrand 19650218`, mixes
the key in (624 iterations), decimates (623 iterations), then forces
`mt[0] = 0x80000000`. -/
def init_by_array (key : List ℕ) : ℕ :=
  let mt := init_genrand 19650218
  let p := ibaLoop1 key (max 624 key.length) mt 1 0
  let mt2 := ibaLoop2 623 p.1 p.2
  mtSet mt2 0 2147483648

/-- Output `idx` of `genrand_uint32` after seeding, valid for `idx < 227`:
`y = (mt[idx] & 0x80000000) | (mt[idx+1] & 0x7fffffff)`, the regenerated
word is `mt[idx+397] ^ (y >> 1) ^ (0x9908b0df if y odd else 0)`, followed
by the four tempering steps. -/
def genrandAt (mt : ℕ) (idx : ℕ) : ℕ :=
  let y := Nat.lor (Nat.land (mtGet mt idx) 2147483648)
      (Nat.land (mtGet mt (idx+1)) 2147483647)
  let mag := if y % 2 = 1 then 2567483615 else 0
  let x0 := Nat.xor (Nat.xor (mtGet mt (idx+397)) (y >>> 1)) mag
  let x1 := Nat.xor x0 (x0 >>> 11)
  let x2 := Nat.xor x1 (Nat.land (x1 <<< 7) 2636928640)
  let x3 := Nat.xor x2 (Nat.land (x2 <<< 15) 4022730752)
  Nat.xor x3 (x3 >>> 18)

/-- `random._randbelow(4)`: draw `getrandbits(3)` — the top 3 bits of the
next 32-bit output — and retry while the draw is ≥ 4.  CPython retries
unboundedly; here retries are bounded by `fuel` (each theorem about this
definition checks that the first draw already succeeds, so the bound is
never reached on the inputs considered). -/
def randbelow4 : ℕ → ℕ → ℕ → ℕ
  | 0, _, _ => 0
  | fuel+1, n, mt =>
    let r := (genrandAt mt n) >>> 29
    if r < 4 then r else randbelow4 fuel (n+1) mt

/-- The pattern list of `simulate_utilization_metrics`. -/
def utilizationPatterns : List String :=
  ["underutilized", "optimal", "constrained", "variable"]

/-- The pattern selected by `simulate_utilization_metrics` as a function of
the process-dependent value `h = hash(instance_name)` (CPython salted string
hash): `random.seed(h % 10000)` followed by
`random.choice(['underutilized', 'optimal', 'constrained', 'variable'])`. -/
def simulate_utilization_pattern (h : ℕ) : String :=
  utilizationPatterns.getD (randbelow4 8 0 (init_by_array [h % 10000])) ""

set_option maxRecDepth 40000 in
/-- C8: the pattern `simulate_utilization_metrics` selects depends on the
process-salted `hash(instance_name) % 10000`, not on the instance name
alone.  Both 1 and 14 occur as values of `hash(name) % 10000` for a fixed
name across runs with different `PYTHONHASHSEED`; hash value 1 selects
pattern 'optimal' while hash value 14 selects 'underutilized', so two runs
of the program can return different metrics for the same instance name —
refuting cross-run determinism.  (The first 3-bit draw is below 4 in both
cases, so `random.choice` performs no retry.) -/
theorem c8_hash_seed_dependence :
    (genrandAt (init_by_array [1]) 0) >>> 29 < 4 ∧
    (genrandAt (init_by_array [14]) 0) >>> 29 < 4 ∧
    simulate_utilization_pattern 1 = "optimal" ∧
    simulate_utilization_pattern 14 = "underutilized" ∧
    simulate_utilization_pattern 1 ≠ simulate_utilization_pattern 14 := by
  have h1 : simulate_utilization_pattern 1 = "optimal" := by decide
  have h2 : simulate_utilization_pattern 14 = "underutilized" := by decide
  refine ⟨by decide, by decide, h1, h2, ?_⟩
  rw [h1, h2]
  decide

end CCO
